import Mathlib

/-!
Feast online-serving core: FeatureView construction and online-store selection

A shallow embedding of `go/feast/featureview.go` and
`go/internal/feast/onlinestore.go`.

Go pointers, maps and structs allocated with `&T{...}` live in an explicit
`Heap`; a function that allocates or writes takes the heap and returns the new
heap next to its Go result.  A run-time panic is an `Except.error`.
-/

namespace Feast

/-! ## Go run-time model -/

/-- The ways an embedded Go function can stop without returning. -/
inductive Fault where
  /-- Go panic: a nil pointer was dereferenced. -/
  | nilDereference
  /-- Go panic: assignment to an entry of a nil map. -/
  | nilMapAssignment
  /-- An address outside the heap; Go's memory safety excludes it. -/
  | danglingAddress
deriving DecidableEq, Repr

/-- Heap addresses: the index of the object in its store. -/
abbrev Addr := Nat

/-- A Go pointer (or map reference): `none` is `nil`. -/
abbrev Ptr := Option Addr

/-- The contents of a Go `map[string]β`: key/value entries, each key at most once
when built with `GoMap.set`.  The order of the entries is not observable through
`GoMap.get?`. -/
abbrev GoMap (β : Type) := List (String × β)

/-- Comma-ok lookup `v, ok := m[k]`: `none` when the key is absent. -/
def GoMap.get? {β : Type} : GoMap β → String → Option β
  | [], _ => none
  | (k', v) :: rest, k => if k' = k then some v else GoMap.get? rest k

/-- Map assignment `m[k] = v`: overwrites the entry of `k` or adds one. -/
def GoMap.set {β : Type} : GoMap β → String → β → GoMap β
  | [], k, v => [(k, v)]
  | (k', v') :: rest, k, v =>
    if k' = k then (k, v) :: rest else (k', v') :: GoMap.set rest k v

/-- The keys present in the map. -/
def GoMap.keys {β : Type} (m : GoMap β) : List String := m.map Prod.fst

/-- The index expression `m[k]` on a `map[string]bool`: an absent key reads as
the zero value `false`. -/
def GoMap.index (m : GoMap Bool) (k : String) : Bool := (GoMap.get? m k).getD false

/-- The contents of a map after `m[name] = true` for each of `names` in turn. -/
def GoMap.setAll (m : GoMap Bool) (names : List String) : GoMap Bool :=
  names.foldl (fun acc name => GoMap.set acc name true) m

/-! ## featureview.go -/

def DUMMY_ENTITY_ID : String := "__dummy_id"
def DUMMY_ENTITY_NAME : String := "__dummy"
def DUMMY_ENTITY_VAL : String := ""

/-- The value fields of `durationpb.Duration`. -/
structure Duration where
  Seconds : Int
  Nanos : Int
deriving DecidableEq, Repr

/-- Modelled from the spec: `BaseFeatureView` is declared outside the two source
files; the spec's feature group is "a name and an ordered sequence of feature
names belonging to it". -/
structure BaseFeatureView where
  name : String
  features : List String
deriving DecidableEq, Repr

/-- The struct `FeatureView`: two pointers and a map reference. -/
structure FeatureView where
  base : Ptr
  ttl : Ptr
  entities : Ptr
deriving DecidableEq, Repr

/-- The fields of `core.FeatureViewSpec` read by `NewFeatureViewFromProto`;
`Features` is kept as the ordered feature names, `Ttl` is a pointer to a
`Duration` on the heap. -/
structure FeatureViewSpec where
  Name : String
  Features : List String
  Ttl : Ptr
  Entities : List String
deriving DecidableEq, Repr

/-- The message `core.FeatureView`: `Spec` is a pointer. -/
structure FeatureViewProto where
  Spec : Option FeatureViewSpec
deriving DecidableEq, Repr

/-- The heap: one store per kind of object, an address is an index in its store. -/
structure Heap where
  durations : List Duration
  bases : List BaseFeatureView
  maps : List (GoMap Bool)
  views : List FeatureView
deriving DecidableEq, Repr

/-- Read through a `*durationpb.Duration`. -/
def Heap.loadDuration (h : Heap) : Ptr → Except Fault Duration
  | none => .error .nilDereference
  | some a =>
    match h.durations[a]? with
    | some d => .ok d
    | none => .error .danglingAddress

/-- Read through a `*FeatureView`. -/
def Heap.loadView (h : Heap) : Ptr → Except Fault FeatureView
  | none => .error .nilDereference
  | some a =>
    match h.views[a]? with
    | some v => .ok v
    | none => .error .danglingAddress

/-- Read the contents behind a map reference; a nil map reads as the empty map. -/
def Heap.loadMap (h : Heap) : Ptr → Except Fault (GoMap Bool)
  | none => .ok []
  | some a =>
    match h.maps[a]? with
    | some m => .ok m
    | none => .error .danglingAddress

/-- Allocate a `Duration` cell (`ttl := *fs.ttl; &ttl`). -/
def Heap.allocDuration (h : Heap) (d : Duration) : Heap × Addr :=
  ({ h with durations := h.durations ++ [d] }, h.durations.length)

/-- Allocate a map (`make(map[string]bool)` or a map literal). -/
def Heap.allocMap (h : Heap) (m : GoMap Bool) : Heap × Addr :=
  ({ h with maps := h.maps ++ [m] }, h.maps.length)

/-- Allocate a struct (`&FeatureView{...}`). -/
def Heap.allocView (h : Heap) (v : FeatureView) : Heap × Addr :=
  ({ h with views := h.views ++ [v] }, h.views.length)

/-- Modelled from the spec: `NewBaseFeatureView` is defined outside the two source
files; it builds the feature group from a name and the ordered features, here as
a fresh object on the heap. -/
def NewBaseFeatureView (h : Heap) (name : String) (features : List String) : Heap × Addr :=
  ({ h with bases := h.bases ++ [{ name := name, features := features }] }, h.bases.length)

/-- The field write `featureView.entities = m`. -/
def Heap.storeEntities (h : Heap) (featureView : Ptr) (m : Ptr) : Except Fault Heap :=
  match featureView with
  | none => .error .nilDereference
  | some a =>
    match h.views[a]? with
    | none => .error .danglingAddress
    | some v => .ok { h with views := h.views.set a { v with entities := m } }

/-- The statement `featureView.entities[entityName] = b`. -/
def Heap.assignEntity (h : Heap) (featureView : Ptr) (entityName : String) (b : Bool) :
    Except Fault Heap := do
  let v ← h.loadView featureView
  match v.entities with
  | none => .error .nilMapAssignment
  | some a =>
    match h.maps[a]? with
    | none => .error .danglingAddress
    | some m => .ok { h with maps := h.maps.set a (GoMap.set m entityName b) }

/-- The loop `for _, entityName := range entities { featureView.entities[entityName] = true }`. -/
def rangeEntities (featureView : Ptr) : List String → Heap → Except Fault Heap
  | [], h => .ok h
  | entityName :: rest, h => do
    let h' ← h.assignEntity featureView entityName true
    rangeEntities featureView rest h'

/-- The constructor `NewFeatureViewFromProto(proto *core.FeatureView) *FeatureView`. -/
def NewFeatureViewFromProto (h : Heap) (proto : Option FeatureViewProto) :
    Except Fault (Heap × Addr) := do
  let p ← match proto with
    | some p => pure p
    | none => throw Fault.nilDereference
  let spec ← match p.Spec with
    | some s => pure s
    | none => throw Fault.nilDereference
  let (h1, base) := NewBaseFeatureView h spec.Name spec.Features
  -- `&(*proto.Spec.Ttl)`: the dereference panics on nil, the result is the same pointer
  let _ ← h1.loadDuration spec.Ttl
  let (h2, featureView) := h1.allocView { base := some base, ttl := spec.Ttl, entities := none }
  if spec.Entities.length = 0 then
    let (h3, m) := h2.allocMap [(DUMMY_ENTITY_NAME, true)]
    let h4 ← h3.storeEntities (some featureView) (some m)
    pure (h4, featureView)
  else
    let (h3, m) := h2.allocMap []
    let h4 ← h3.storeEntities (some featureView) (some m)
    let h5 ← rangeEntities (some featureView) spec.Entities h4
    pure (h5, featureView)

/-- The method `func (fs *FeatureView) NewFeatureViewFromBase(base *BaseFeatureView) *FeatureView`. -/
def NewFeatureViewFromBase (h : Heap) (fs : Ptr) (base : Ptr) : Except Fault (Heap × Addr) := do
  let v ← h.loadView fs
  let d ← h.loadDuration v.ttl
  let (h1, ttl) := h.allocDuration d
  let (h2, featureView) := h1.allocView { base := base, ttl := some ttl, entities := v.entities }
  pure (h2, featureView)

/-! ### Observations of a view on the heap -/

/-- The entity-key set of the view at `p`: the keys of its `entities` map. -/
def entityKeys (h : Heap) (p : Addr) : List String :=
  match h.loadView (some p) with
  | .ok v =>
    match h.loadMap v.entities with
    | .ok m => GoMap.keys m
    | .error _ => []
  | .error _ => []

/-- The lookup `fv.entities[name]` on the view at `p`. -/
def hasEntity (h : Heap) (p : Addr) (name : String) : Bool :=
  match h.loadView (some p) with
  | .ok v =>
    match h.loadMap v.entities with
    | .ok m => GoMap.index m name
    | .error _ => false
  | .error _ => false

/-- The value `*fv.ttl` of the view at `p`. -/
def ttlValue (h : Heap) (p : Addr) : Option Duration :=
  match h.loadView (some p) with
  | .ok v =>
    match h.loadDuration v.ttl with
    | .ok d => some d
    | .error _ => none
  | .error _ => none

/-- The feature group `*fv.base` of the view at `p`. -/
def baseValue (h : Heap) (p : Addr) : Option BaseFeatureView :=
  match h.loadView (some p) with
  | .ok v =>
    match v.base with
    | some b => h.bases[b]?
    | none => none
  | .error _ => none

/-- The contents of the `entities` map that `NewFeatureViewFromProto` builds from
the declared entity list: the two branches of its `if`, without the heap. -/
def constructedEntities (entities : List String) : GoMap Bool :=
  if entities.length = 0 then [(DUMMY_ENTITY_NAME, true)] else GoMap.setAll [] entities

/-- The descriptor's `Ttl` is not nil: it points to a `Duration` of the heap. -/
def ttlPresent (h : Heap) (spec : FeatureViewSpec) : Bool :=
  match h.loadDuration spec.Ttl with
  | .ok _ => true
  | .error _ => false

/-- A call of one of the two functions that produce a view. -/
inductive Call where
  | fromProto (proto : Option FeatureViewProto)
  | fromBase (fs : Ptr) (base : Ptr)
deriving DecidableEq, Repr

/-- Run one call on the heap. -/
def Call.exec (h : Heap) : Call → Except Fault (Heap × Addr)
  | .fromProto proto => NewFeatureViewFromProto h proto
  | .fromBase fs base => NewFeatureViewFromBase h fs base

/-- Run a sequence of calls, each on the heap the previous one left; a call that
panics ends the run. -/
def runCalls : List Call → Heap → Except Fault Heap
  | [], h => .ok h
  | c :: rest, h =>
    match c.exec h with
    | .ok (h', _) => runCalls rest h'
    | .error e => .error e

/-- Every view on the heap refers to a map on the heap that has at least one
entry. -/
def Heap.Keyed (h : Heap) : Prop :=
  ∀ (q : Addr) (v : FeatureView), h.views[q]? = some v →
    ∃ (a : Addr) (m : GoMap Bool), v.entities = some a ∧ h.maps[a]? = some m ∧ m ≠ []

/-- The view at `p` is dummy-keyed: its entity-key set is the singleton of the
dummy-entity name. -/
def dummyKeyed (h : Heap) (p : Addr) : Prop :=
  ∀ name : String, name ∈ entityKeys h p ↔ name = DUMMY_ENTITY_NAME

/-! ### Example data -/

/-- A heap that holds one `Duration` of 3600 s and no other object. -/
def hourHeap : Heap :=
  { durations := [{ Seconds := 3600, Nanos := 0 }], bases := [], maps := [], views := [] }

/-- The descriptor of `driver_stats`, keyed by `driver_id`. -/
def driverStats : FeatureViewSpec :=
  { Name := "driver_stats", Features := ["conv_rate", "acc_rate"], Ttl := some 0,
    Entities := ["driver_id"] }

/-- The descriptor of `global_stats`, which declares no entity. -/
def globalStats : FeatureViewSpec :=
  { Name := "global_stats", Features := ["total_requests"], Ttl := some 0, Entities := [] }

/-- A descriptor whose entity list repeats a name. -/
def tripStats : FeatureViewSpec :=
  { Name := "trip_stats", Features := ["fare"], Ttl := some 0,
    Entities := ["driver_id", "rider_id", "driver_id"] }

/-- A descriptor that declares one entity, named like the dummy entity. -/
def dummyNamed : FeatureViewSpec :=
  { Name := "odd_stats", Features := ["n"], Ttl := some 0, Entities := ["__dummy"] }

/-- The heap after constructing the view of `dummyNamed` on `hourHeap`. -/
def dummyNamedHeap : Heap :=
  { durations := [{ Seconds := 3600, Nanos := 0 }]
    bases := [{ name := "odd_stats", features := ["n"] }]
    maps := [[("__dummy", true)]]
    views := [{ base := some 0, ttl := some 0, entities := some 0 }] }

/-- The heap after constructing the view of `tripStats` on `hourHeap`. -/
def tripHeap : Heap :=
  { durations := [{ Seconds := 3600, Nanos := 0 }]
    bases := [{ name := "trip_stats", features := ["fare"] }]
    maps := [[("driver_id", true), ("rider_id", true)]]
    views := [{ base := some 0, ttl := some 0, entities := some 0 }] }

/-- The heap after constructing the view of `driverStats` on `hourHeap`. -/
def driverHeap : Heap :=
  { durations := [{ Seconds := 3600, Nanos := 0 }]
    bases := [{ name := "driver_stats", features := ["conv_rate", "acc_rate"] }]
    maps := [[("driver_id", true)]]
    views := [{ base := some 0, ttl := some 0, entities := some 0 }] }

/-- The heap after constructing the view of `globalStats` on `hourHeap`. -/
def globalHeap : Heap :=
  { durations := [{ Seconds := 3600, Nanos := 0 }]
    bases := [{ name := "global_stats", features := ["total_requests"] }]
    maps := [[("__dummy", true)]]
    views := [{ base := some 0, ttl := some 0, entities := some 0 }] }

/-- The heap `tripHeap` with a second feature group, a projection of the first. -/
def projHeap : Heap :=
  { tripHeap with bases := tripHeap.bases ++ [{ name := "trip_stats", features := [] }] }

/-- The heap after deriving, on `projHeap`, a view from view 0 with base 1. -/
def derivedHeap : Heap :=
  { durations := [{ Seconds := 3600, Nanos := 0 }, { Seconds := 3600, Nanos := 0 }]
    bases := [{ name := "trip_stats", features := ["fare"] },
              { name := "trip_stats", features := [] }]
    maps := [[("driver_id", true), ("rider_id", true)]]
    views := [{ base := some 0, ttl := some 0, entities := some 0 },
              { base := some 1, ttl := some 1, entities := some 0 }] }

/-- A run: construct the view of `globalStats`, derive from it, derive from the
derived view. -/
def sampleCalls : List Call :=
  [.fromProto (some ⟨some globalStats⟩), .fromBase (some 0) none, .fromBase (some 1) (some 0)]

/-- The heap after `sampleCalls` on `hourHeap`. -/
def sampleHeap : Heap :=
  { durations := [{ Seconds := 3600, Nanos := 0 }, { Seconds := 3600, Nanos := 0 },
                  { Seconds := 3600, Nanos := 0 }]
    bases := [{ name := "global_stats", features := ["total_requests"] }]
    maps := [[("__dummy", true)]]
    views := [{ base := some 0, ttl := some 0, entities := some 0 },
              { base := none, ttl := some 1, entities := some 0 },
              { base := some 0, ttl := some 2, entities := some 0 }] }

/-! ## onlinestore.go -/

/-- The dynamic values an `interface{}` of the store configuration can hold. -/
inductive GoValue where
  /-- The nil interface value. -/
  | nil
  | string (s : String)
  | bool (b : Bool)
  | int (n : Int)
  | slice (xs : List GoValue)
  | map (kvs : List (String × GoValue))
deriving Repr

/-- The comma-ok type assertion `x.(string)`: the string and `true` when the
dynamic type is `string`, the zero value `""` and `false` otherwise. -/
def GoValue.assertString : GoValue → String × Bool
  | .string s => (s, true)
  | _ => ("", false)

/-- The function `getOnlineStoreType(onlineStoreConfig map[string]interface{}) (string, bool)`. -/
def getOnlineStoreType (onlineStoreConfig : GoMap GoValue) : String × Bool :=
  match GoMap.get? onlineStoreConfig "type" with
  | none => ("", false)
  | some onlineStoreType => onlineStoreType.assertString

/-- An `error` value built by `errors.New`: its message. -/
structure GoError where
  msg : String
deriving DecidableEq, Repr

/-- The fields of `config.RepoConfig` read by `getOnlineStore`. -/
structure RepoConfig where
  Project : String
  OnlineStore : GoMap GoValue
deriving Repr

/-- What a call of `getOnlineStore` produces: the returned pair
`(OnlineStore, error)`, `none` standing for `nil`, and the calls it made to the
backend constructor, each with its arguments, in order. -/
structure Outcome (σ : Type) where
  store : Option σ
  err : Option GoError
  constructorCalls : List (String × GoMap GoValue)

/-- The text of `fmt.Sprintf("could not get online store type from online store
config: %+v", cfg)`: the literal part followed by the rendering of `cfg` under the
verb `%+v`, which the library `fmt` provides (`plusV`). -/
def sprintfConfig (plusV : GoMap GoValue → String) (cfg : GoMap GoValue) : String :=
  "could not get online store type from online store config: " ++ plusV cfg

/-- The function `getOnlineStore(config *config.RepoConfig) (OnlineStore, error)`.
`NewRedisOnlineStore` is the backend constructor, defined outside the two source
files; its results are taken as the pair it returns. -/
def getOnlineStore {σ : Type}
    (NewRedisOnlineStore : String → GoMap GoValue → Option σ × Option GoError)
    (plusV : GoMap GoValue → String) (config : Option RepoConfig) :
    Except Fault (Outcome σ) :=
  match config with
  | none => .error .nilDereference
  | some config =>
    let (onlineStoreType, ok) := getOnlineStoreType config.OnlineStore
    if !ok then
      .ok { store := none
            err := some ⟨sprintfConfig plusV config.OnlineStore⟩
            constructorCalls := [] }
    else if onlineStoreType = "redis" then
      let (onlineStore, err) := NewRedisOnlineStore config.Project config.OnlineStore
      .ok { store := onlineStore
            err := err
            constructorCalls := [(config.Project, config.OnlineStore)] }
    else
      .ok { store := none
            err := some ⟨"only Redis is supported as an online store for now"⟩
            constructorCalls := [] }

/-- The text `t` occurs in the message `msg` as a contiguous run of characters. -/
def containsText (msg t : String) : Prop := t.data <:+: msg.data

instance (msg t : String) : Decidable (containsText msg t) := by
  unfold containsText
  infer_instance

/-- The message of the error `getOnlineStore` returns for a backend other than
Redis. -/
def onlyRedisMessage : String := "only Redis is supported as an online store for now"

/-- A backend constructor for the examples: the store is the project name. -/
def sampleRedis (project : String) (_cfg : GoMap GoValue) : Option String × Option GoError :=
  (some project, none)

/-- A backend constructor for the examples that fails to connect. -/
def failingRedis (_project : String) (_cfg : GoMap GoValue) : Option String × Option GoError :=
  (none, some ⟨"dial tcp 127.0.0.1:6379: connect: connection refused"⟩)

/-- A stand-in for the rendering of a map under `%+v`, for the examples: the keys
between `map[` and `]`. -/
def sampleRender (cfg : GoMap GoValue) : String :=
  "map[" ++ String.intercalate " " (GoMap.keys cfg) ++ "]"

/-- A configuration without the key `type`. -/
def untypedConfig : RepoConfig :=
  { Project := "feast_demo", OnlineStore := [("connection_string", .string "localhost:6379")] }

/-- A configuration whose `type` is a number. -/
def numberTypedConfig : RepoConfig :=
  { Project := "feast_demo", OnlineStore := [("type", .int 7)] }

/-- A configuration that names a backend other than Redis. -/
def unknownConfig : RepoConfig :=
  { Project := "feast_demo", OnlineStore := [("type", .string "unknown-xyz")] }

/-- A configuration that names Redis. -/
def redisConfig : RepoConfig :=
  { Project := "feast_demo",
    OnlineStore := [("type", .string "redis"), ("connection_string", .string "localhost:6379")] }

/-! ### The online store contract -/

/-- The fields of `serving.FeatureReferenceV2` that name a feature. -/
structure FeatureReferenceV2 where
  FeatureViewName : String
  FeatureName : String
deriving DecidableEq, Repr

/-- The value fields of `timestamp.Timestamp`. -/
structure Timestamp where
  Seconds : Int
  Nanos : Int
deriving DecidableEq, Repr

/-- The message `types.Value`: the kinds of its oneof `Val` used here, `unset`
when the oneof is nil. -/
inductive Value where
  | unset
  | StringVal (s : String)
  | Int64Val (n : Int)
  | BoolVal (b : Bool)
deriving DecidableEq, Repr

/-- The variable `DUMMY_ENTITY` of featureview.go. -/
def DUMMY_ENTITY : Value := .StringVal DUMMY_ENTITY_VAL

/-- The struct `FeatureData`. -/
structure FeatureData where
  reference : FeatureReferenceV2
  timestamp : Timestamp
  value : Value
deriving DecidableEq, Repr

/-- The fields of `types.EntityKey`. -/
structure EntityKey where
  JoinKeys : List String
  EntityValues : List Value
deriving DecidableEq, Repr

/-- Modelled from the spec: an implementation of the interface `OnlineStore` is
not in the two source files.  A backend is what the spec lets a read depend on:
whether the store can be reached at all, which entities a transient failure
reaches, and the materialized value, with its event timestamp, of an (entity,
view, feature) triple when there is one. -/
structure Backend where
  connected : Bool
  failing : EntityKey → Bool
  materialized : EntityKey → String → String → Option (Timestamp × Value)

/-- Modelled from the spec: the missing-value policy of `OnlineRead`, which is
not in the two source files: the datum at one position carries the materialized
value, or "an absent-value marker and a zero/epoch timestamp". -/
def Backend.datum (b : Backend) (entityKey : EntityKey) (view feature : String) : FeatureData :=
  match b.materialized entityKey view feature with
  | some (t, v) => { reference := ⟨view, feature⟩, timestamp := t, value := v }
  | none => { reference := ⟨view, feature⟩, timestamp := ⟨0, 0⟩, value := .unset }

/-- Modelled from the spec: the method `OnlineRead(entityKeys, view, features)
([][]FeatureData, error)` of a backend, which is not in the two source files.  A
failure that reaches the store or a subset of the entities "is reported as a
whole-call error"; otherwise there is one row per entity key and in each row one
datum per feature name, in the order of the arguments. -/
def Backend.OnlineRead (b : Backend) (entityKeys : List EntityKey) (view : String)
    (features : List String) : Except GoError (List (List FeatureData)) :=
  if !b.connected || entityKeys.any b.failing then
    .error ⟨"online store read failed"⟩
  else
    .ok (entityKeys.map fun entityKey => features.map fun feature => b.datum entityKey view feature)

/-- The entity key `driver_id = 1001`. -/
def driver1001 : EntityKey := { JoinKeys := ["driver_id"], EntityValues := [.Int64Val 1001] }

/-- The entity key `driver_id = 1002`. -/
def driver1002 : EntityKey := { JoinKeys := ["driver_id"], EntityValues := [.Int64Val 1002] }

/-- The rows a read of two drivers and two features returns from `sparseBackend`. -/
def sparseRows : List (List FeatureData) :=
  [[{ reference := ⟨"driver_stats", "conv_rate"⟩, timestamp := ⟨1646000000, 0⟩,
      value := .Int64Val 87 },
    { reference := ⟨"driver_stats", "acc_rate"⟩, timestamp := ⟨0, 0⟩, value := .unset }],
   [{ reference := ⟨"driver_stats", "conv_rate"⟩, timestamp := ⟨0, 0⟩, value := .unset },
    { reference := ⟨"driver_stats", "acc_rate"⟩, timestamp := ⟨0, 0⟩, value := .unset }]]

/-- A backend that holds one value, `conv_rate` of driver 1001 in `driver_stats`. -/
def sparseBackend : Backend :=
  { connected := true
    failing := fun _ => false
    materialized := fun entityKey view feature =>
      if entityKey = driver1001 ∧ view = "driver_stats" ∧ feature = "conv_rate" then
        some (⟨1646000000, 0⟩, .Int64Val 87)
      else none }

/-! ### Further example data and observations of a view -/

/-- A descriptor whose `Ttl` is nil. -/
def untimedStats : FeatureViewSpec :=
  { Name := "static_stats", Features := ["region"], Ttl := none, Entities := ["driver_id"] }

/-- A configuration whose `type` is the empty string. -/
def emptyTypedConfig : RepoConfig :=
  { Project := "feast_demo", OnlineStore := [("type", .string "")] }

/-- The contents of the `entities` map of the view at `p`; empty when the view or
the map cannot be read. -/
def entityMap (h : Heap) (p : Addr) : GoMap Bool :=
  match h.loadView (some p) with
  | .ok v =>
    match h.loadMap v.entities with
    | .ok m => m
    | .error _ => []
  | .error _ => []

/-- The map represents a set: no key is mapped to `false`. -/
def GoMap.AllTrue (m : GoMap Bool) : Prop :=
  ∀ (k : String) (b : Bool), GoMap.get? m k = some b → b = true

/-- Every view on the heap refers to a map on the heap whose contents satisfy `P`. -/
def Heap.ViewsHave (P : GoMap Bool → Prop) (h : Heap) : Prop :=
  ∀ (q : Addr) (v : FeatureView), h.views[q]? = some v →
    ∃ (a : Addr) (m : GoMap Bool), v.entities = some a ∧ h.maps[a]? = some m ∧ P m

/-- The value of a view: its base pointer and the feature group behind it, the
`Duration` behind its ttl pointer, and its map reference with the contents of the
map. -/
structure ViewValue where
  base : Ptr
  features : Option BaseFeatureView
  ttl : Option Duration
  entities : Ptr
  keys : GoMap Bool
deriving DecidableEq, Repr

/-- The value of the view at `p`; `none` when `p` is not a view of the heap. -/
def viewValue (h : Heap) (p : Addr) : Option ViewValue :=
  match h.loadView (some p) with
  | .ok v =>
    some { base := v.base, features := baseValue h p, ttl := ttlValue h p,
           entities := v.entities, keys := entityMap h p }
  | .error _ => none

/-- The heap after deriving, on `projHeap`, a view from view 0 with its own
base 0. -/
def rederivedHeap : Heap :=
  { durations := [{ Seconds := 3600, Nanos := 0 }, { Seconds := 3600, Nanos := 0 }]
    bases := [{ name := "trip_stats", features := ["fare"] },
              { name := "trip_stats", features := [] }]
    maps := [[("driver_id", true), ("rider_id", true)]]
    views := [{ base := some 0, ttl := some 0, entities := some 0 },
              { base := some 0, ttl := some 1, entities := some 0 }] }

/-! ## Lemmas on maps, the heap and the two constructors -/

theorem GoMap.mem_keys_set {β : Type} (m : GoMap β) (k : String) (v : β) (x : String) :
    x ∈ GoMap.keys (GoMap.set m k v) ↔ x = k ∨ x ∈ GoMap.keys m := by
  induction m with
  | nil => simp [GoMap.set, GoMap.keys]
  | cons kv rest ih =>
    obtain ⟨k', v'⟩ := kv
    unfold GoMap.set
    by_cases hk : k' = k
    · subst hk
      simp [GoMap.keys]
    · simp only [hk, if_false]
      simp only [GoMap.keys, List.map_cons, List.mem_cons] at ih ⊢
      rw [ih]
      tauto

theorem GoMap.nodup_keys_set {β : Type} (m : GoMap β) (k : String) (v : β)
    (hm : (GoMap.keys m).Nodup) : (GoMap.keys (GoMap.set m k v)).Nodup := by
  induction m with
  | nil => simp [GoMap.set, GoMap.keys]
  | cons kv rest ih =>
    obtain ⟨k', v'⟩ := kv
    unfold GoMap.set
    by_cases hk : k' = k
    · subst hk
      simpa [GoMap.keys] using hm
    · simp only [hk, if_false]
      have hm' : k' ∉ GoMap.keys rest ∧ (GoMap.keys rest).Nodup := by
        simpa [GoMap.keys] using hm
      have hmem := GoMap.mem_keys_set rest k v k'
      have : (GoMap.keys ((k', v') :: GoMap.set rest k v)) = k' :: GoMap.keys (GoMap.set rest k v) := rfl
      rw [this, List.nodup_cons]
      refine ⟨?_, ih hm'.2⟩
      rw [hmem]
      rintro (h | h)
      · exact hk h
      · exact hm'.1 h

theorem GoMap.get?_set {β : Type} (m : GoMap β) (k : String) (v : β) (x : String) :
    GoMap.get? (GoMap.set m k v) x = if k = x then some v else GoMap.get? m x := by
  induction m with
  | nil => simp [GoMap.set, GoMap.get?]
  | cons kv rest ih =>
    obtain ⟨k', v'⟩ := kv
    unfold GoMap.set
    by_cases hk : k' = k
    · subst hk
      by_cases hx : k' = x <;> simp [GoMap.get?, hx]
    · simp only [hk, if_false]
      by_cases hx : k' = x
      · subst hx
        simp [GoMap.get?, Ne.symm hk]
      · simp [GoMap.get?, hx, ih]

theorem GoMap.get?_eq_none_iff {β : Type} (m : GoMap β) (x : String) :
    GoMap.get? m x = none ↔ x ∉ GoMap.keys m := by
  induction m with
  | nil => simp [GoMap.get?, GoMap.keys]
  | cons kv rest ih =>
    obtain ⟨k', v'⟩ := kv
    by_cases hx : k' = x
    · subst hx
      simp [GoMap.get?, GoMap.keys]
    · simp only [GoMap.get?, hx, if_false, ih]
      simp [GoMap.keys, Ne.symm hx]

theorem list_set_same {α : Type} (l : List α) (i : Nat) (x : α) (hx : l[i]? = some x) :
    l.set i x = l := by
  apply List.ext_getElem?
  intro j
  rw [List.getElem?_set]
  by_cases hij : i = j
  · subst hij
    have hlt : i < l.length := by
      rcases List.getElem?_eq_some.mp hx with ⟨hlt, _⟩
      exact hlt
    simp [hlt, hx]
  · simp [hij]

theorem rangeEntities_ok (fv a : Addr) (v : FeatureView) (names : List String) :
    ∀ (h : Heap) (m : GoMap Bool), h.views[fv]? = some v → v.entities = some a →
      h.maps[a]? = some m →
      rangeEntities (some fv) names h
        = .ok { h with maps := h.maps.set a (GoMap.setAll m names) } := by
  induction names with
  | nil =>
    intro h m _ _ hm
    simp [rangeEntities, GoMap.setAll, list_set_same _ _ _ hm]
  | cons name rest ih =>
    intro h m hv he hm
    have hlt : a < h.maps.length := by
      rcases List.getElem?_eq_some.mp hm with ⟨hlt, _⟩
      exact hlt
    have hstep : h.assignEntity (some fv) name true
        = .ok { h with maps := h.maps.set a (GoMap.set m name true) } := by
      simp [Heap.assignEntity, Heap.loadView, hv, he, hm, bind, Except.bind]
    unfold rangeEntities
    rw [hstep]
    simp only [bind, Except.bind]
    have hnext := ih { h with maps := h.maps.set a (GoMap.set m name true) }
      (GoMap.set m name true) hv he (List.getElem?_set_self hlt)
    rw [hnext]
    simp [GoMap.setAll, List.set_set]

theorem NewFeatureViewFromProto_ok (h : Heap) (spec : FeatureViewSpec) (a : Addr) (d : Duration)
    (hT : spec.Ttl = some a) (hd : h.durations[a]? = some d) :
    NewFeatureViewFromProto h (some ⟨some spec⟩)
      = .ok ({ durations := h.durations
               bases := h.bases ++ [{ name := spec.Name, features := spec.Features }]
               maps := h.maps ++ [constructedEntities spec.Entities]
               views := h.views ++
                 [{ base := some h.bases.length, ttl := some a, entities := some h.maps.length }] },
             h.views.length) := by
  by_cases hlen : spec.Entities.length = 0
  · simp [NewFeatureViewFromProto, NewBaseFeatureView, Heap.loadDuration, Heap.allocView,
      Heap.allocMap, hT, hd, hlen, constructedEntities, bind, Except.bind, pure, Except.pure,
      Heap.storeEntities]
  · have hrange := rangeEntities_ok h.views.length h.maps.length
      { base := some h.bases.length, ttl := some a, entities := some h.maps.length }
      spec.Entities
      { durations := h.durations
        bases := h.bases ++ [{ name := spec.Name, features := spec.Features }]
        maps := h.maps ++ [[]]
        views := h.views ++
          [{ base := some h.bases.length, ttl := some a, entities := some h.maps.length }] }
      [] (by simp) rfl (by simp)
    simp [NewFeatureViewFromProto, NewBaseFeatureView, Heap.loadDuration, Heap.allocView,
      Heap.allocMap, hT, hd, hlen, constructedEntities, bind, Except.bind, pure, Except.pure,
      Heap.storeEntities]
    simp at hrange
    rw [hrange]

theorem NewFeatureViewFromProto_inv (h : Heap) (proto : Option FeatureViewProto)
    (r : Heap × Addr) (hr : NewFeatureViewFromProto h proto = .ok r) :
    ∃ (spec : FeatureViewSpec) (a : Addr) (d : Duration),
      proto = some ⟨some spec⟩ ∧ spec.Ttl = some a ∧ h.durations[a]? = some d := by
  match proto, hr with
  | none, hr =>
    simp [NewFeatureViewFromProto, bind, Except.bind, throw, throwThe, MonadExceptOf.throw] at hr
  | some ⟨none⟩, hr =>
    simp [NewFeatureViewFromProto, bind, Except.bind, throw, throwThe, MonadExceptOf.throw, pure,
      Except.pure] at hr
  | some ⟨some spec⟩, hr =>
    cases hT : spec.Ttl with
    | none =>
      simp [NewFeatureViewFromProto, NewBaseFeatureView, Heap.loadDuration, hT, bind, Except.bind,
        pure, Except.pure] at hr
    | some a =>
      cases hd : h.durations[a]? with
      | none =>
        simp [NewFeatureViewFromProto, NewBaseFeatureView, Heap.loadDuration, hT, hd, bind,
          Except.bind, pure, Except.pure] at hr
      | some d => exact ⟨spec, a, d, rfl, hT, hd⟩

theorem GoMap.mem_keys_setAll (names : List String) :
    ∀ (m : GoMap Bool) (x : String),
      x ∈ GoMap.keys (GoMap.setAll m names) ↔ x ∈ GoMap.keys m ∨ x ∈ names := by
  induction names with
  | nil => intro m x; simp [GoMap.setAll]
  | cons name rest ih =>
    intro m x
    have hstep : GoMap.setAll m (name :: rest) = GoMap.setAll (GoMap.set m name true) rest := rfl
    rw [hstep, ih, GoMap.mem_keys_set, List.mem_cons]
    tauto

theorem GoMap.nodup_keys_setAll (names : List String) :
    ∀ (m : GoMap Bool), (GoMap.keys m).Nodup → (GoMap.keys (GoMap.setAll m names)).Nodup := by
  induction names with
  | nil => intro m hm; simpa [GoMap.setAll] using hm
  | cons name rest ih =>
    intro m hm
    have hstep : GoMap.setAll m (name :: rest) = GoMap.setAll (GoMap.set m name true) rest := rfl
    rw [hstep]
    exact ih _ (GoMap.nodup_keys_set m name true hm)

theorem GoMap.get?_setAll (names : List String) :
    ∀ (m : GoMap Bool) (x : String),
      GoMap.get? (GoMap.setAll m names) x = if x ∈ names then some true else GoMap.get? m x := by
  induction names with
  | nil => intro m x; simp [GoMap.setAll]
  | cons name rest ih =>
    intro m x
    have hstep : GoMap.setAll m (name :: rest) = GoMap.setAll (GoMap.set m name true) rest := rfl
    rw [hstep, ih, GoMap.get?_set]
    by_cases hx : x ∈ rest
    · simp [hx]
    · by_cases hn : name = x
      · subst hn; simp
      · simp [hx, hn, Ne.symm hn]

theorem mem_keys_constructedEntities (entities : List String) (x : String) :
    x ∈ GoMap.keys (constructedEntities entities)
      ↔ (entities = [] ∧ x = DUMMY_ENTITY_NAME) ∨ x ∈ entities := by
  cases entities with
  | nil => simp [constructedEntities, GoMap.keys]
  | cons e rest =>
    have hne : ¬ (e :: rest).length = 0 := by simp
    simp only [constructedEntities, hne, if_false, GoMap.mem_keys_setAll]
    simp [GoMap.keys]

theorem nodup_keys_constructedEntities (entities : List String) :
    (GoMap.keys (constructedEntities entities)).Nodup := by
  cases entities with
  | nil => simp [constructedEntities, GoMap.keys]
  | cons e rest =>
    have hne : ¬ (e :: rest).length = 0 := by simp
    simp only [constructedEntities, hne, if_false]
    exact GoMap.nodup_keys_setAll _ [] (by simp [GoMap.keys])

theorem get?_constructedEntities (entities : List String) (x : String) :
    GoMap.get? (constructedEntities entities) x
      = if x ∈ GoMap.keys (constructedEntities entities) then some true else none := by
  cases entities with
  | nil =>
    by_cases hx : DUMMY_ENTITY_NAME = x
    · subst hx; simp [constructedEntities, GoMap.keys, GoMap.get?]
    · simp [constructedEntities, GoMap.keys, GoMap.get?, hx, Ne.symm hx]
  | cons e rest =>
    have hne : ¬ (e :: rest).length = 0 := by simp
    simp only [constructedEntities, hne, if_false, GoMap.mem_keys_setAll, GoMap.get?_setAll]
    simp [GoMap.keys, GoMap.get?]

theorem index_constructedEntities (entities : List String) (x : String) :
    GoMap.index (constructedEntities entities) x = true
      ↔ x ∈ GoMap.keys (constructedEntities entities) := by
  rw [GoMap.index, get?_constructedEntities]
  by_cases hx : x ∈ GoMap.keys (constructedEntities entities) <;> simp [hx]

/-- The shape of every successful construction: the heap grows by one base, one
map and one view, and the view is the last one. -/
theorem NewFeatureViewFromProto_shape (h : Heap) (proto : Option FeatureViewProto)
    (h' : Heap) (p : Addr) (hr : NewFeatureViewFromProto h proto = .ok (h', p)) :
    ∃ (spec : FeatureViewSpec) (a : Addr) (d : Duration),
      proto = some ⟨some spec⟩ ∧ spec.Ttl = some a ∧ h.durations[a]? = some d ∧
      p = h.views.length ∧
      h' = { durations := h.durations
             bases := h.bases ++ [{ name := spec.Name, features := spec.Features }]
             maps := h.maps ++ [constructedEntities spec.Entities]
             views := h.views ++
               [{ base := some h.bases.length, ttl := some a, entities := some h.maps.length }] } := by
  obtain ⟨spec, a, d, hp, hT, hd⟩ := NewFeatureViewFromProto_inv h proto (h', p) hr
  subst hp
  rw [NewFeatureViewFromProto_ok h spec a d hT hd] at hr
  injection hr with hr
  injection hr with h1 h2
  exact ⟨spec, a, d, rfl, hT, hd, h2.symm, h1.symm⟩

theorem entityKeys_last (ds : List Duration) (bs : List BaseFeatureView)
    (ms : List (GoMap Bool)) (vs : List FeatureView) (m : GoMap Bool) (b t : Ptr) :
    entityKeys { durations := ds, bases := bs, maps := ms ++ [m],
                 views := vs ++ [{ base := b, ttl := t, entities := some ms.length }] }
      vs.length = GoMap.keys m := by
  simp [entityKeys, Heap.loadView, Heap.loadMap]

theorem hasEntity_last (ds : List Duration) (bs : List BaseFeatureView)
    (ms : List (GoMap Bool)) (vs : List FeatureView) (m : GoMap Bool) (b t : Ptr) (x : String) :
    hasEntity { durations := ds, bases := bs, maps := ms ++ [m],
                views := vs ++ [{ base := b, ttl := t, entities := some ms.length }] }
      vs.length x = GoMap.index m x := by
  simp [hasEntity, Heap.loadView, Heap.loadMap]

theorem NewFeatureViewFromProto_returns (h : Heap) (spec : FeatureViewSpec)
    (ht : ttlPresent h spec = true) :
    ∃ (h' : Heap) (p : Addr), NewFeatureViewFromProto h (some ⟨some spec⟩) = .ok (h', p) := by
  cases hT : spec.Ttl with
  | none => simp [ttlPresent, Heap.loadDuration, hT] at ht
  | some a =>
    cases hd : h.durations[a]? with
    | none => simp [ttlPresent, Heap.loadDuration, hT, hd] at ht
    | some d => exact ⟨_, _, NewFeatureViewFromProto_ok h spec a d hT hd⟩

theorem NewFeatureViewFromProto_entities (h : Heap) (spec : FeatureViewSpec)
    (h' : Heap) (p : Addr) (hr : NewFeatureViewFromProto h (some ⟨some spec⟩) = .ok (h', p)) :
    entityKeys h' p = GoMap.keys (constructedEntities spec.Entities) ∧
    ∀ x, hasEntity h' p x = GoMap.index (constructedEntities spec.Entities) x := by
  obtain ⟨spec', a, d, hp, _, _, hp', hh⟩ := NewFeatureViewFromProto_shape h _ h' p hr
  have hs : spec' = spec := by
    injection hp with hp
    injection hp with hp
    injection hp with hp
    exact hp.symm
  subst hs
  subst hp'
  subst hh
  exact ⟨entityKeys_last _ _ _ _ _ _ _, fun x => hasEntity_last _ _ _ _ _ _ _ x⟩

theorem NewFeatureViewFromBase_ok (h : Heap) (a : Addr) (base : Ptr) (v : FeatureView)
    (t : Addr) (d : Duration) (hv : h.views[a]? = some v) (ht : v.ttl = some t)
    (hd : h.durations[t]? = some d) :
    NewFeatureViewFromBase h (some a) base
      = .ok ({ durations := h.durations ++ [d]
               bases := h.bases
               maps := h.maps
               views := h.views ++
                 [{ base := base, ttl := some h.durations.length, entities := v.entities }] },
             h.views.length) := by
  simp [NewFeatureViewFromBase, Heap.loadView, Heap.loadDuration, Heap.allocDuration,
    Heap.allocView, hv, ht, hd, bind, Except.bind, pure, Except.pure]

theorem NewFeatureViewFromBase_inv (h : Heap) (fs base : Ptr) (r : Heap × Addr)
    (hr : NewFeatureViewFromBase h fs base = .ok r) :
    ∃ (a : Addr) (v : FeatureView) (t : Addr) (d : Duration),
      fs = some a ∧ h.views[a]? = some v ∧ v.ttl = some t ∧ h.durations[t]? = some d := by
  cases fs with
  | none => simp [NewFeatureViewFromBase, Heap.loadView, bind, Except.bind] at hr
  | some a =>
    cases hv : h.views[a]? with
    | none => simp [NewFeatureViewFromBase, Heap.loadView, hv, bind, Except.bind] at hr
    | some v =>
      cases ht : v.ttl with
      | none =>
        simp [NewFeatureViewFromBase, Heap.loadView, Heap.loadDuration, hv, ht, bind,
          Except.bind] at hr
      | some t =>
        cases hd : h.durations[t]? with
        | none =>
          simp [NewFeatureViewFromBase, Heap.loadView, Heap.loadDuration, hv, ht, hd, bind,
            Except.bind] at hr
        | some d => exact ⟨a, v, t, d, rfl, hv, ht, hd⟩

/-- The shape of every successful derivation: the heap grows by one `Duration`
cell and one view, nothing else changes. -/
theorem NewFeatureViewFromBase_shape (h : Heap) (fs base : Ptr) (h' : Heap) (p : Addr)
    (hr : NewFeatureViewFromBase h fs base = .ok (h', p)) :
    ∃ (a : Addr) (v : FeatureView) (t : Addr) (d : Duration),
      fs = some a ∧ h.views[a]? = some v ∧ v.ttl = some t ∧ h.durations[t]? = some d ∧
      p = h.views.length ∧
      h' = { durations := h.durations ++ [d]
             bases := h.bases
             maps := h.maps
             views := h.views ++
               [{ base := base, ttl := some h.durations.length, entities := v.entities }] } := by
  obtain ⟨a, v, t, d, hfs, hv, ht, hd⟩ := NewFeatureViewFromBase_inv h fs base (h', p) hr
  subst hfs
  rw [NewFeatureViewFromBase_ok h a base v t d hv ht hd] at hr
  injection hr with hr
  injection hr with h1 h2
  exact ⟨a, v, t, d, rfl, hv, ht, hd, h2.symm, h1.symm⟩

theorem getElem?_lt_of_eq_some {α : Type} (l : List α) (i : Nat) (x : α)
    (hx : l[i]? = some x) : i < l.length := by
  rcases List.getElem?_eq_some.mp hx with ⟨hlt, _⟩
  exact hlt

/-- After a derivation the source view reads as before. -/
theorem derived_source_unchanged (h : Heap) (a : Addr) (base : Ptr) (v : FeatureView)
    (t : Addr) (d : Duration) (hv : h.views[a]? = some v) (ht : v.ttl = some t)
    (hd : h.durations[t]? = some d) (h' : Heap)
    (hh : h' = { durations := h.durations ++ [d]
                 bases := h.bases
                 maps := h.maps
                 views := h.views ++
                   [{ base := base, ttl := some h.durations.length, entities := v.entities }] }) :
    h'.views[a]? = some v ∧ baseValue h' a = baseValue h a ∧ ttlValue h a = some d ∧
    ttlValue h' a = some d ∧ entityKeys h' a = entityKeys h a ∧
    ∀ x, hasEntity h' a x = hasEntity h a x := by
  subst hh
  have hlt := getElem?_lt_of_eq_some _ _ _ hv
  have hlt' := getElem?_lt_of_eq_some _ _ _ hd
  have hv' : (h.views ++
      [({ base := base, ttl := some h.durations.length, entities := v.entities } : FeatureView)])[a]?
      = some v := by
    rw [List.getElem?_append_left hlt, hv]
  have hd' : (h.durations ++ [d])[t]? = some d := by
    rw [List.getElem?_append_left hlt', hd]
  refine ⟨hv', ?_, ?_, ?_, ?_, ?_⟩
  · simp [baseValue, Heap.loadView, hv, hv']
  · simp [ttlValue, Heap.loadView, Heap.loadDuration, hv, ht, hd]
  · simp [ttlValue, Heap.loadView, Heap.loadDuration, hv', ht, hd']
  · simp [entityKeys, Heap.loadView, Heap.loadMap, hv, hv']
  · intro x
    simp [hasEntity, Heap.loadView, Heap.loadMap, hv, hv']

/-- After a derivation the new view has the given base, a fresh cell with the
source's ttl value and the source's map. -/
theorem derived_view_reads (h : Heap) (a : Addr) (base : Ptr) (v : FeatureView)
    (d : Duration) (hv : h.views[a]? = some v)
    (h' : Heap)
    (hh : h' = { durations := h.durations ++ [d]
                 bases := h.bases
                 maps := h.maps
                 views := h.views ++
                   [{ base := base, ttl := some h.durations.length, entities := v.entities }] }) :
    h'.views[h.views.length]?
      = some { base := base, ttl := some h.durations.length, entities := v.entities } ∧
    ttlValue h' h.views.length = some d ∧
    entityKeys h' h.views.length = entityKeys h a ∧
    ∀ x, hasEntity h' h.views.length x = hasEntity h a x := by
  subst hh
  refine ⟨by simp, ?_, ?_, ?_⟩
  · simp [ttlValue, Heap.loadView, Heap.loadDuration]
  · simp [entityKeys, Heap.loadView, Heap.loadMap, hv]
  · intro x
    simp [hasEntity, Heap.loadView, Heap.loadMap, hv]

/-! ## featureview.go: entity keys and derivation -/

/-- C1: for a descriptor whose declared entity list is non-empty, a view is
returned whenever the ttl is present, and the entity-key set of every view
returned is exactly the set of the declared names: the keys are pairwise distinct
(repetitions collapse), they form the same finite set as the declared list
(whatever its order), and the map lookup of a name is true exactly for the
declared names. -/
theorem NewFeatureViewFromProto_declared_entities (h : Heap) (spec : FeatureViewSpec)
    (hne : spec.Entities ≠ []) :
    (ttlPresent h spec = true →
      ∃ (h' : Heap) (p : Addr), NewFeatureViewFromProto h (some ⟨some spec⟩) = .ok (h', p)) ∧
    ∀ (h' : Heap) (p : Addr), NewFeatureViewFromProto h (some ⟨some spec⟩) = .ok (h', p) →
      (entityKeys h' p).Nodup ∧
      (entityKeys h' p).toFinset = spec.Entities.toFinset ∧
      ∀ name : String,
        (name ∈ entityKeys h' p ↔ name ∈ spec.Entities) ∧
        (hasEntity h' p name = true ↔ name ∈ spec.Entities) := by
  refine ⟨NewFeatureViewFromProto_returns h spec, ?_⟩
  intro h' p hr
  obtain ⟨hk, hi⟩ := NewFeatureViewFromProto_entities h spec h' p hr
  have hmem : ∀ name : String, name ∈ entityKeys h' p ↔ name ∈ spec.Entities := by
    intro name
    rw [hk, mem_keys_constructedEntities]
    constructor
    · rintro (⟨he, _⟩ | hx)
      · exact absurd he hne
      · exact hx
    · exact fun hx => Or.inr hx
  refine ⟨?_, ?_, ?_⟩
  · rw [hk]
    exact nodup_keys_constructedEntities _
  · ext name
    simp only [List.mem_toFinset]
    exact hmem name
  · intro name
    refine ⟨hmem name, ?_⟩
    rw [hi, index_constructedEntities, ← hk]
    exact hmem name

/-- C1 at `driverStats`, whose list is `[driver_id]`, and at `tripStats`, whose
list is `[driver_id, rider_id, driver_id]`: the views are returned, the keys of
the first are `[driver_id]` and the keys of the second are the two distinct
names. -/
theorem NewFeatureViewFromProto_declared_entities_witness :
    driverStats.Entities ≠ [] ∧
    NewFeatureViewFromProto hourHeap (some ⟨some driverStats⟩) = .ok (driverHeap, 0) ∧
    entityKeys driverHeap 0 = ["driver_id"] ∧
    (entityKeys driverHeap 0).toFinset = driverStats.Entities.toFinset ∧
    tripStats.Entities ≠ [] ∧
    NewFeatureViewFromProto hourHeap (some ⟨some tripStats⟩) = .ok (tripHeap, 0) ∧
    entityKeys tripHeap 0 = ["driver_id", "rider_id"] ∧
    (entityKeys tripHeap 0).Nodup ∧
    (entityKeys tripHeap 0).toFinset = tripStats.Entities.toFinset ∧
    (hasEntity tripHeap 0 "rider_id" = true ↔ "rider_id" ∈ tripStats.Entities) :=
  have hdriver := (NewFeatureViewFromProto_declared_entities hourHeap driverStats (by decide)).2
    driverHeap 0 rfl
  have htrip := (NewFeatureViewFromProto_declared_entities hourHeap tripStats (by decide)).2
    tripHeap 0 rfl
  ⟨by decide, rfl, rfl, hdriver.2.1, by decide, rfl, rfl, htrip.1, htrip.2.1,
    (htrip.2.2 "rider_id").2⟩

/-- C2: for a descriptor whose declared entity list is empty, a view is returned
whenever the ttl is present, and the entity-key set of every view returned is
the singleton of `DUMMY_ENTITY_NAME`, which is `"__dummy"`: that name is the only
key, the only name whose lookup is true, and `DUMMY_ENTITY_ID` is not a key. -/
theorem NewFeatureViewFromProto_no_entities (h : Heap) (spec : FeatureViewSpec)
    (hempty : spec.Entities = []) :
    (ttlPresent h spec = true →
      ∃ (h' : Heap) (p : Addr), NewFeatureViewFromProto h (some ⟨some spec⟩) = .ok (h', p)) ∧
    ∀ (h' : Heap) (p : Addr), NewFeatureViewFromProto h (some ⟨some spec⟩) = .ok (h', p) →
      entityKeys h' p = [DUMMY_ENTITY_NAME] ∧
      DUMMY_ENTITY_NAME = "__dummy" ∧
      (∀ name : String, name ∈ entityKeys h' p ↔ name = "__dummy") ∧
      (∀ name : String, hasEntity h' p name = true ↔ name = "__dummy") ∧
      DUMMY_ENTITY_ID ∉ entityKeys h' p ∧
      hasEntity h' p DUMMY_ENTITY_ID = false := by
  refine ⟨NewFeatureViewFromProto_returns h spec, ?_⟩
  intro h' p hr
  obtain ⟨hk, hi⟩ := NewFeatureViewFromProto_entities h spec h' p hr
  have hkeys : entityKeys h' p = [DUMMY_ENTITY_NAME] := by
    rw [hk, hempty]
    rfl
  have hlook : ∀ name : String, hasEntity h' p name = true ↔ name = "__dummy" := by
    intro name
    rw [hi, index_constructedEntities, ← hk, hkeys]
    simp [DUMMY_ENTITY_NAME]
  refine ⟨hkeys, rfl, ?_, hlook, ?_, ?_⟩
  · intro name
    rw [hkeys]
    simp [DUMMY_ENTITY_NAME]
  · rw [hkeys]
    decide
  · have hid := hlook DUMMY_ENTITY_ID
    have hneq : ¬ DUMMY_ENTITY_ID = "__dummy" := by decide
    cases hval : hasEntity h' p DUMMY_ENTITY_ID with
    | false => rfl
    | true => exact absurd (hid.mp hval) hneq

/-- C2 at `globalStats`, which declares no entity: the view is returned and its
only key is `"__dummy"`. -/
theorem NewFeatureViewFromProto_no_entities_witness :
    globalStats.Entities = [] ∧
    NewFeatureViewFromProto hourHeap (some ⟨some globalStats⟩) = .ok (globalHeap, 0) ∧
    entityKeys globalHeap 0 = [DUMMY_ENTITY_NAME] ∧
    hasEntity globalHeap 0 DUMMY_ENTITY_ID = false :=
  have hall := (NewFeatureViewFromProto_no_entities hourHeap globalStats rfl).2 globalHeap 0 rfl
  ⟨rfl, rfl, hall.1, hall.2.2.2.2.2⟩

theorem constructedEntities_ne_nil (entities : List String) :
    constructedEntities entities ≠ [] := by
  cases entities with
  | nil => simp [constructedEntities]
  | cons e rest =>
    intro hnil
    have hmem : e ∈ GoMap.keys (constructedEntities (e :: rest)) :=
      (mem_keys_constructedEntities (e :: rest) e).mpr (Or.inr (List.mem_cons_self e rest))
    rw [hnil] at hmem
    simp [GoMap.keys] at hmem

theorem entityKeys_ne_nil_of_keyed (h : Heap) (hk : h.Keyed) (p : Addr)
    (hp : p < h.views.length) : entityKeys h p ≠ [] := by
  have hv : h.views[p]? = some (h.views[p]) := List.getElem?_eq_getElem hp
  obtain ⟨a, m, he, hm, hne⟩ := hk p _ hv
  simp only [entityKeys, Heap.loadView, hv, he, Heap.loadMap, hm]
  cases m with
  | nil => exact absurd rfl hne
  | cons kv rest => simp [GoMap.keys]

theorem keyed_after_construct (h : Heap) (hk : h.Keyed) (proto : Option FeatureViewProto)
    (h' : Heap) (p : Addr) (hr : NewFeatureViewFromProto h proto = .ok (h', p)) : h'.Keyed := by
  obtain ⟨spec, a, d, _, _, _, _, hh⟩ := NewFeatureViewFromProto_shape h proto h' p hr
  subst hh
  intro q v hv
  by_cases hq : (q : Nat) < h.views.length
  · have hv0 : h.views[q]? = some v := by
      simpa [List.getElem?_append_left hq] using hv
    obtain ⟨a', m, he, hm, hne⟩ := hk q v hv0
    refine ⟨a', m, he, ?_, hne⟩
    show (h.maps ++ [constructedEntities spec.Entities])[a']? = some m
    rw [List.getElem?_append_left (getElem?_lt_of_eq_some _ _ _ hm), hm]
  · have hlt := getElem?_lt_of_eq_some _ _ _ hv
    have hq' : q = h.views.length := by
      have hle : q < h.views.length + 1 := by simpa using hlt
      exact Nat.le_antisymm (Nat.lt_succ_iff.mp hle) (Nat.le_of_not_lt hq)
    subst hq'
    have hv1 : v = { base := some h.bases.length, ttl := some a, entities := some h.maps.length } := by
      simpa using hv.symm
    subst hv1
    exact ⟨h.maps.length, constructedEntities spec.Entities, rfl, by simp,
      constructedEntities_ne_nil _⟩

theorem keyed_after_derive (h : Heap) (hk : h.Keyed) (fs base : Ptr)
    (h' : Heap) (p : Addr) (hr : NewFeatureViewFromBase h fs base = .ok (h', p)) : h'.Keyed := by
  obtain ⟨a, v0, t, d, _, hv0, _, _, _, hh⟩ := NewFeatureViewFromBase_shape h fs base h' p hr
  subst hh
  intro q v hv
  by_cases hq : (q : Nat) < h.views.length
  · have hvq : h.views[q]? = some v := by
      simpa [List.getElem?_append_left hq] using hv
    exact hk q v hvq
  · have hlt := getElem?_lt_of_eq_some _ _ _ hv
    have hq' : q = h.views.length := by
      have hle : q < h.views.length + 1 := by simpa using hlt
      exact Nat.le_antisymm (Nat.lt_succ_iff.mp hle) (Nat.le_of_not_lt hq)
    subst hq'
    have hv1 : v = { base := base, ttl := some h.durations.length, entities := v0.entities } := by
      simpa using hv.symm
    subst hv1
    exact hk a v0 hv0

theorem keyed_after_calls (calls : List Call) :
    ∀ (h0 h : Heap), h0.Keyed → runCalls calls h0 = .ok h → h.Keyed := by
  induction calls with
  | nil =>
    intro h0 h hk hr
    simp only [runCalls] at hr
    injection hr with hr
    subst hr
    exact hk
  | cons c rest ih =>
    intro h0 h hk hr
    simp only [runCalls] at hr
    cases hc : c.exec h0 with
    | error e => simp [hc] at hr
    | ok r =>
      obtain ⟨h1, p⟩ := r
      simp only [hc] at hr
      refine ih h1 h ?_ hr
      cases c with
      | fromProto proto => exact keyed_after_construct h0 hk proto h1 p hc
      | fromBase fs base => exact keyed_after_derive h0 hk fs base h1 p hc

/-- C3: the entity-key set of a view is never empty.  Every view returned by
`NewFeatureViewFromProto` has at least one entity key, whatever the descriptor; a
view returned by `NewFeatureViewFromBase` has the entity keys of its source; and
on a heap reached from one without views by any sequence of constructions and
derivations, every view has at least one entity key. -/
theorem entityKeys_never_empty :
    (∀ (h : Heap) (proto : Option FeatureViewProto) (h' : Heap) (p : Addr),
      NewFeatureViewFromProto h proto = .ok (h', p) → entityKeys h' p ≠ []) ∧
    (∀ (h : Heap) (fs base : Ptr) (h' : Heap) (p : Addr),
      NewFeatureViewFromBase h fs base = .ok (h', p) →
        ∃ a : Addr, fs = some a ∧ entityKeys h' p = entityKeys h a) ∧
    (∀ (h0 : Heap) (calls : List Call) (h : Heap),
      h0.views = [] → runCalls calls h0 = .ok h →
        ∀ p : Addr, p < h.views.length → entityKeys h p ≠ []) := by
  refine ⟨?_, ?_, ?_⟩
  · intro h proto h' p hr
    obtain ⟨spec, a, d, hp, _, _, _, _⟩ := NewFeatureViewFromProto_shape h proto h' p hr
    subst hp
    rw [(NewFeatureViewFromProto_entities h spec h' p hr).1]
    have hne := constructedEntities_ne_nil spec.Entities
    cases hce : constructedEntities spec.Entities with
    | nil => exact absurd hce hne
    | cons kv rest => simp [GoMap.keys]
  · intro h fs base h' p hr
    obtain ⟨a, v, t, d, hfs, hv, _, _, hp, hh⟩ := NewFeatureViewFromBase_shape h fs base h' p hr
    subst hp
    exact ⟨a, hfs, (derived_view_reads h a base v d hv h' hh).2.2.1⟩
  · intro h0 calls h hinit hr p hp
    have hk0 : h0.Keyed := by
      intro q v hv
      simp [hinit] at hv
    exact entityKeys_ne_nil_of_keyed h (keyed_after_calls calls h0 h hk0 hr) p hp

/-- C3 on a run of one construction and two derivations from `hourHeap`: the run
succeeds and the last view derived has an entity key. -/
theorem entityKeys_never_empty_witness :
    hourHeap.views = [] ∧ runCalls sampleCalls hourHeap = .ok sampleHeap ∧
    entityKeys sampleHeap 2 ≠ [] :=
  ⟨rfl, rfl, entityKeys_never_empty.2.2 hourHeap sampleCalls sampleHeap rfl rfl 2 (by decide)⟩

/-- C4: `NewFeatureViewFromBase` never mutates the source view.  When
`fs.NewFeatureViewFromBase(base)` returns, the receiver is a view of the heap
other than the new one, its struct is unchanged, and its base, its ttl value and
its entity-key set (keys and lookups) read as before; no base, no map, no
`Duration` cell and no view that existed before the call has changed. -/
theorem NewFeatureViewFromBase_source_unchanged (h : Heap) (fs base : Ptr) (h' : Heap)
    (p : Addr) (hr : NewFeatureViewFromBase h fs base = .ok (h', p)) :
    ∃ (a : Addr) (v : FeatureView),
      fs = some a ∧ p ≠ a ∧ h.views[a]? = some v ∧ h'.views[a]? = some v ∧
      baseValue h' a = baseValue h a ∧
      ttlValue h' a = ttlValue h a ∧
      entityKeys h' a = entityKeys h a ∧
      (∀ name : String, hasEntity h' a name = hasEntity h a name) ∧
      h'.bases = h.bases ∧ h'.maps = h.maps ∧
      (∀ i : Nat, i < h.durations.length → h'.durations[i]? = h.durations[i]?) ∧
      (∀ i : Nat, i < h.views.length → h'.views[i]? = h.views[i]?) := by
  obtain ⟨a, v, t, d, hfs, hv, ht, hd, hp, hh⟩ := NewFeatureViewFromBase_shape h fs base h' p hr
  obtain ⟨hv', hb, ht0, ht1, hk, hl⟩ := derived_source_unchanged h a base v t d hv ht hd h' hh
  have hlt := getElem?_lt_of_eq_some _ _ _ hv
  refine ⟨a, v, hfs, ?_, hv, hv', hb, by rw [ht0, ht1], hk, hl, ?_, ?_, ?_, ?_⟩
  · rw [hp]
    exact Nat.ne_of_gt hlt
  · rw [hh]
  · rw [hh]
  · intro i hi
    rw [hh]
    exact List.getElem?_append_left hi
  · intro i hi
    rw [hh]
    exact List.getElem?_append_left hi

/-- C4 on `projHeap`: deriving from view 0 with base 1 returns view 1 and leaves
view 0 as it was. -/
theorem NewFeatureViewFromBase_source_unchanged_witness :
    NewFeatureViewFromBase projHeap (some 0) (some 1) = .ok (derivedHeap, 1) ∧
    ∃ (a : Addr) (v : FeatureView),
      some 0 = some a ∧ 1 ≠ a ∧ projHeap.views[a]? = some v ∧ derivedHeap.views[a]? = some v ∧
      baseValue derivedHeap a = baseValue projHeap a ∧
      ttlValue derivedHeap a = ttlValue projHeap a ∧
      entityKeys derivedHeap a = entityKeys projHeap a ∧
      (∀ name : String, hasEntity derivedHeap a name = hasEntity projHeap a name) ∧
      derivedHeap.bases = projHeap.bases ∧ derivedHeap.maps = projHeap.maps ∧
      (∀ i : Nat, i < projHeap.durations.length →
        derivedHeap.durations[i]? = projHeap.durations[i]?) ∧
      (∀ i : Nat, i < projHeap.views.length → derivedHeap.views[i]? = projHeap.views[i]?) :=
  ⟨rfl, NewFeatureViewFromBase_source_unchanged projHeap (some 0) (some 1) derivedHeap 1 rfl⟩

/-- C5: for a view `a` of the heap and a base `base`, `NewFeatureViewFromBase`
returns whenever the view's ttl can be read, and every view it returns has
exactly `base` as its base (the same feature group), a ttl cell holding the value
of the source's ttl, and the entity-key set of the source (the same map). -/
theorem NewFeatureViewFromBase_result (h : Heap) (a : Addr) (base : Ptr) :
    ((ttlValue h a).isSome = true →
      ∃ (h' : Heap) (p : Addr), NewFeatureViewFromBase h (some a) base = .ok (h', p)) ∧
    ∀ (h' : Heap) (p : Addr), NewFeatureViewFromBase h (some a) base = .ok (h', p) →
      ∃ (v v' : FeatureView) (d : Duration),
        h.views[a]? = some v ∧ h'.views[p]? = some v' ∧
        v'.base = base ∧ h'.bases = h.bases ∧
        ttlValue h a = some d ∧ ttlValue h' p = some d ∧
        v'.entities = v.entities ∧ h'.maps = h.maps ∧
        entityKeys h' p = entityKeys h a ∧
        ∀ name : String, hasEntity h' p name = hasEntity h a name := by
  constructor
  · intro hsome
    cases hv : h.views[a]? with
    | none => simp [ttlValue, Heap.loadView, hv] at hsome
    | some v =>
      cases ht : v.ttl with
      | none => simp [ttlValue, Heap.loadView, Heap.loadDuration, hv, ht] at hsome
      | some t =>
        cases hd : h.durations[t]? with
        | none => simp [ttlValue, Heap.loadView, Heap.loadDuration, hv, ht, hd] at hsome
        | some d => exact ⟨_, _, NewFeatureViewFromBase_ok h a base v t d hv ht hd⟩
  · intro h' p hr
    obtain ⟨a', v, t, d, hfs, hv, ht, hd, hp, hh⟩ :=
      NewFeatureViewFromBase_shape h (some a) base h' p hr
    have ha : a' = a := by
      injection hfs with hfs
      exact hfs.symm
    subst ha
    obtain ⟨_, _, ht0, _, _, _⟩ := derived_source_unchanged h a' base v t d hv ht hd h' hh
    obtain ⟨hnew, htn, hkn, hln⟩ := derived_view_reads h a' base v d hv h' hh
    subst hp
    refine ⟨v, _, d, hv, hnew, rfl, ?_, ht0, htn, rfl, ?_, hkn, hln⟩
    · rw [hh]
    · rw [hh]

/-- C5 on `projHeap`: the view derived from view 0 with base 1 has base 1, the
ttl value 3600 s and the keys `driver_id`, `rider_id` of view 0. -/
theorem NewFeatureViewFromBase_result_witness :
    (ttlValue projHeap 0).isSome = true ∧
    NewFeatureViewFromBase projHeap (some 0) (some 1) = .ok (derivedHeap, 1) ∧
    ∃ (v v' : FeatureView) (d : Duration),
      projHeap.views[0]? = some v ∧ derivedHeap.views[1]? = some v' ∧
      v'.base = some 1 ∧ derivedHeap.bases = projHeap.bases ∧
      ttlValue projHeap 0 = some d ∧ ttlValue derivedHeap 1 = some d ∧
      v'.entities = v.entities ∧ derivedHeap.maps = projHeap.maps ∧
      entityKeys derivedHeap 1 = entityKeys projHeap 0 ∧
      ∀ name : String, hasEntity derivedHeap 1 name = hasEntity projHeap 0 name :=
  ⟨rfl, rfl, (NewFeatureViewFromBase_result projHeap 0 (some 1)).2 derivedHeap 1 rfl⟩

/-- C6 as stated fails: the descriptor `dummyNamed` declares one entity, named
`"__dummy"`, and the view constructed from it is dummy-keyed although its declared
list is not empty. -/
theorem dummy_keyed_iff_empty_counterexample :
    NewFeatureViewFromProto hourHeap (some ⟨some dummyNamed⟩) = .ok (dummyNamedHeap, 0) ∧
    ¬ (dummyKeyed dummyNamedHeap 0 ↔ dummyNamed.Entities = []) := by
  refine ⟨rfl, ?_⟩
  intro hiff
  have hk : dummyKeyed dummyNamedHeap 0 := by
    intro name
    have hkeys : entityKeys dummyNamedHeap 0 = ["__dummy"] := rfl
    rw [hkeys]
    simp [DUMMY_ENTITY_NAME]
  exact absurd (hiff.mp hk) (by decide)

/-- C6, amended: a view is returned whenever the ttl is present, and a view
returned by `NewFeatureViewFromProto` is dummy-keyed if and only if every declared
entity name is the dummy-entity name, which includes the empty list; so an empty
declared list always gives a dummy-keyed view, and a descriptor that declares an
entity other than the dummy-entity name is never dummy-keyed. -/
theorem NewFeatureViewFromProto_dummy_keyed (h : Heap) (spec : FeatureViewSpec) :
    (ttlPresent h spec = true →
      ∃ (h' : Heap) (p : Addr), NewFeatureViewFromProto h (some ⟨some spec⟩) = .ok (h', p)) ∧
    ∀ (h' : Heap) (p : Addr), NewFeatureViewFromProto h (some ⟨some spec⟩) = .ok (h', p) →
      (dummyKeyed h' p ↔ ∀ e ∈ spec.Entities, e = DUMMY_ENTITY_NAME) ∧
      (spec.Entities = [] → dummyKeyed h' p) ∧
      ((∃ e ∈ spec.Entities, e ≠ DUMMY_ENTITY_NAME) → ¬ dummyKeyed h' p) := by
  refine ⟨NewFeatureViewFromProto_returns h spec, ?_⟩
  intro h' p hr
  obtain ⟨hk, _⟩ := NewFeatureViewFromProto_entities h spec h' p hr
  have hiff : dummyKeyed h' p ↔ ∀ e ∈ spec.Entities, e = DUMMY_ENTITY_NAME := by
    unfold dummyKeyed
    rw [hk]
    constructor
    · intro hd e he
      exact (hd e).mp ((mem_keys_constructedEntities _ e).mpr (Or.inr he))
    · intro hall name
      rw [mem_keys_constructedEntities]
      constructor
      · rintro (⟨_, hn⟩ | hn)
        · exact hn
        · exact hall name hn
      · intro hn
        cases hE : spec.Entities with
        | nil => exact Or.inl ⟨rfl, hn⟩
        | cons e rest =>
          right
          have he : e = DUMMY_ENTITY_NAME := hall e (by rw [hE]; exact List.mem_cons_self e rest)
          rw [hn, ← he]
          exact List.mem_cons_self e rest
  refine ⟨hiff, ?_, ?_⟩
  · intro hE
    apply hiff.mpr
    intro e he
    rw [hE] at he
    simp at he
  · rintro ⟨e, he, hne⟩ hd
    exact hne (hiff.mp hd e he)

/-- C6, amended, at `tripStats` and `globalStats`: the first view is not
dummy-keyed, the second is. -/
theorem NewFeatureViewFromProto_dummy_keyed_witness :
    ¬ dummyKeyed tripHeap 0 ∧ dummyKeyed globalHeap 0 :=
  ⟨((NewFeatureViewFromProto_dummy_keyed hourHeap tripStats).2 tripHeap 0 rfl).2.2
      ⟨"driver_id", by decide, by decide⟩,
   ((NewFeatureViewFromProto_dummy_keyed hourHeap globalStats).2 globalHeap 0 rfl).2.1 rfl⟩

/-! ## onlinestore.go: backend selection -/

theorem getOnlineStoreType_string (cfg : GoMap GoValue) (t : String)
    (htype : GoMap.get? cfg "type" = some (.string t)) : getOnlineStoreType cfg = (t, true) := by
  simp [getOnlineStoreType, htype, GoValue.assertString]

theorem getOnlineStoreType_other (cfg : GoMap GoValue)
    (htype : GoMap.get? cfg "type" = none ∨
      ∃ v : GoValue, GoMap.get? cfg "type" = some v ∧ ∀ s : String, v ≠ .string s) :
    getOnlineStoreType cfg = ("", false) := by
  rcases htype with hnone | ⟨v, hv, hns⟩
  · simp [getOnlineStoreType, hnone]
  · cases v with
    | string s => exact absurd rfl (hns s)
    | nil => simp [getOnlineStoreType, hv, GoValue.assertString]
    | bool b => simp [getOnlineStoreType, hv, GoValue.assertString]
    | int n => simp [getOnlineStoreType, hv, GoValue.assertString]
    | slice xs => simp [getOnlineStoreType, hv, GoValue.assertString]
    | map kvs => simp [getOnlineStoreType, hv, GoValue.assertString]

theorem containsText_append_right (a b : String) : containsText (a ++ b) b := by
  unfold containsText
  rw [String.data_append]
  exact (List.suffix_append a.data b.data).isInfix

theorem onlyRedisMessage_ne_sprintfConfig (plusV : GoMap GoValue → String)
    (cfg : GoMap GoValue) : onlyRedisMessage ≠ sprintfConfig plusV cfg := by
  intro heq
  have hdata := congrArg (fun s : String => s.data.head?) heq
  simp only [sprintfConfig, String.data_append] at hdata
  have hl : onlyRedisMessage.data.head? = some 'o' := rfl
  have hr : ∀ l : List Char,
      (("could not get online store type from online store config: " : String).data ++ l).head?
        = some 'c' := fun _ => rfl
  rw [hl, hr] at hdata
  exact absurd hdata (by decide)

/-- C7: when the online-store mapping has no key `type`, or its `type` is not a
string, `getOnlineStore` returns no store and an error whose message is the
literal text followed by the rendering of the online-store mapping, so the
message contains that rendering; the backend constructor is not called. -/
theorem getOnlineStore_type_missing {σ : Type}
    (NewRedisOnlineStore : String → GoMap GoValue → Option σ × Option GoError)
    (plusV : GoMap GoValue → String) (config : RepoConfig)
    (htype : GoMap.get? config.OnlineStore "type" = none ∨
      ∃ v : GoValue, GoMap.get? config.OnlineStore "type" = some v ∧
        ∀ s : String, v ≠ .string s) :
    getOnlineStore NewRedisOnlineStore plusV (some config)
      = .ok { store := none
              err := some ⟨sprintfConfig plusV config.OnlineStore⟩
              constructorCalls := [] } ∧
    containsText (sprintfConfig plusV config.OnlineStore) (plusV config.OnlineStore) := by
  refine ⟨?_, containsText_append_right _ _⟩
  simp [getOnlineStore, getOnlineStoreType_other config.OnlineStore htype]

/-- C7 at a configuration without `type` and at one whose `type` is the number
7, with a constructor that would succeed: no store, the configuration error, no
constructor call. -/
theorem getOnlineStore_type_missing_witness :
    GoMap.get? untypedConfig.OnlineStore "type" = none ∧
    getOnlineStore sampleRedis sampleRender (some untypedConfig)
      = .ok { store := none
              err := some ⟨"could not get online store type from online store config: map[connection_string]"⟩
              constructorCalls := [] } ∧
    containsText (sprintfConfig sampleRender untypedConfig.OnlineStore)
      (sampleRender untypedConfig.OnlineStore) ∧
    GoMap.get? numberTypedConfig.OnlineStore "type" = some (.int 7) ∧
    getOnlineStore sampleRedis sampleRender (some numberTypedConfig)
      = .ok { store := none
              err := some ⟨"could not get online store type from online store config: map[type]"⟩
              constructorCalls := [] } :=
  ⟨rfl,
   (getOnlineStore_type_missing sampleRedis sampleRender untypedConfig (Or.inl rfl)).1.trans
     (by rfl),
   (getOnlineStore_type_missing sampleRedis sampleRender untypedConfig (Or.inl rfl)).2,
   rfl,
   (getOnlineStore_type_missing sampleRedis sampleRender numberTypedConfig
     (Or.inr ⟨.int 7, rfl, fun s hs => by cases hs⟩)).1.trans (by rfl)⟩

theorem getOnlineStore_not_redis {σ : Type}
    (NewRedisOnlineStore : String → GoMap GoValue → Option σ × Option GoError)
    (plusV : GoMap GoValue → String) (config : RepoConfig) (t : String)
    (htype : GoMap.get? config.OnlineStore "type" = some (.string t)) (hne : t ≠ "redis") :
    getOnlineStore NewRedisOnlineStore plusV (some config)
      = .ok { store := none, err := some ⟨onlyRedisMessage⟩, constructorCalls := [] } := by
  simp [getOnlineStore, getOnlineStoreType_string config.OnlineStore t htype, hne,
    onlyRedisMessage]

/-- C8: when `type` is a string other than exactly `"redis"`, `getOnlineStore`
returns no store and the error "only Redis is supported as an online store for
now"; this error differs from the configuration error of a missing or non-string
type, whatever the configuration that one renders; the backend constructor is
not called. -/
theorem getOnlineStore_unsupported_backend {σ : Type}
    (NewRedisOnlineStore : String → GoMap GoValue → Option σ × Option GoError)
    (plusV : GoMap GoValue → String) (config : RepoConfig) (t : String)
    (htype : GoMap.get? config.OnlineStore "type" = some (.string t)) (hne : t ≠ "redis") :
    getOnlineStore NewRedisOnlineStore plusV (some config)
      = .ok { store := none
              err := some ⟨"only Redis is supported as an online store for now"⟩
              constructorCalls := [] } ∧
    ∀ (render : GoMap GoValue → String) (other : GoMap GoValue),
      (⟨"only Redis is supported as an online store for now"⟩ : GoError)
        ≠ ⟨sprintfConfig render other⟩ := by
  refine ⟨getOnlineStore_not_redis NewRedisOnlineStore plusV config t htype hne, ?_⟩
  intro render other heq
  injection heq with heq
  exact onlyRedisMessage_ne_sprintfConfig render other heq

/-- C8 at `type: "unknown-xyz"`, and likewise at `"Redis"` and at the empty
string, with a constructor that would succeed. -/
theorem getOnlineStore_unsupported_backend_witness :
    GoMap.get? unknownConfig.OnlineStore "type" = some (.string "unknown-xyz") ∧
    "unknown-xyz" ≠ "redis" ∧
    getOnlineStore sampleRedis sampleRender (some unknownConfig)
      = .ok { store := none
              err := some ⟨"only Redis is supported as an online store for now"⟩
              constructorCalls := [] } ∧
    getOnlineStore sampleRedis sampleRender (some ⟨"feast_demo", [("type", .string "Redis")]⟩)
      = .ok { store := none
              err := some ⟨"only Redis is supported as an online store for now"⟩
              constructorCalls := [] } ∧
    getOnlineStore sampleRedis sampleRender (some ⟨"feast_demo", [("type", .string "")]⟩)
      = .ok { store := none
              err := some ⟨"only Redis is supported as an online store for now"⟩
              constructorCalls := [] } :=
  ⟨rfl, by decide,
   (getOnlineStore_unsupported_backend sampleRedis sampleRender unknownConfig "unknown-xyz" rfl
     (by decide)).1,
   (getOnlineStore_unsupported_backend sampleRedis sampleRender
     ⟨"feast_demo", [("type", .string "Redis")]⟩ "Redis" rfl (by decide)).1,
   (getOnlineStore_unsupported_backend sampleRedis sampleRender
     ⟨"feast_demo", [("type", .string "")]⟩ "" rfl (by decide)).1⟩

/-- C9 as stated fails: for `type: "unknown-xyz"` the error returned is "only
Redis is supported as an online store for now", and this message does not contain
`unknown-xyz`. -/
theorem unsupported_error_names_type_counterexample :
    GoMap.get? unknownConfig.OnlineStore "type" = some (.string "unknown-xyz") ∧
    getOnlineStore sampleRedis sampleRender (some unknownConfig)
      = .ok { store := none
              err := some ⟨"only Redis is supported as an online store for now"⟩
              constructorCalls := [] } ∧
    ¬ containsText "only Redis is supported as an online store for now" "unknown-xyz" :=
  ⟨rfl, rfl, by decide⟩

/-- C9, amended: when `type` is a string other than `"redis"`, the error returned
by `getOnlineStore` carries the fixed message "only Redis is supported as an
online store for now", the same for every such type; the message contains the
type string exactly when that string occurs in this fixed text. -/
theorem getOnlineStore_unsupported_message {σ : Type}
    (NewRedisOnlineStore : String → GoMap GoValue → Option σ × Option GoError)
    (plusV : GoMap GoValue → String) (config : RepoConfig) (t : String)
    (htype : GoMap.get? config.OnlineStore "type" = some (.string t)) (hne : t ≠ "redis") :
    ∃ (o : Outcome σ) (e : GoError),
      getOnlineStore NewRedisOnlineStore plusV (some config) = .ok o ∧
      o.err = some e ∧
      e.msg = "only Redis is supported as an online store for now" ∧
      (containsText e.msg t
        ↔ containsText "only Redis is supported as an online store for now" t) :=
  ⟨_, _, getOnlineStore_not_redis NewRedisOnlineStore plusV config t htype hne, rfl, rfl,
    Iff.rfl⟩

/-- C9, amended, at `type: "unknown-xyz"`. -/
theorem getOnlineStore_unsupported_message_witness :
    GoMap.get? unknownConfig.OnlineStore "type" = some (.string "unknown-xyz") ∧
    "unknown-xyz" ≠ "redis" ∧
    ∃ (o : Outcome String) (e : GoError),
      getOnlineStore sampleRedis sampleRender (some unknownConfig) = .ok o ∧
      o.err = some e ∧
      e.msg = "only Redis is supported as an online store for now" ∧
      (containsText e.msg "unknown-xyz"
        ↔ containsText "only Redis is supported as an online store for now" "unknown-xyz") :=
  ⟨rfl, by decide,
   getOnlineStore_unsupported_message sampleRedis sampleRender unknownConfig "unknown-xyz" rfl
     (by decide)⟩

/-- C10: when `type` is the string `"redis"`, `getOnlineStore` calls the backend
constructor once, with the configuration's project and its online-store mapping
as they are, and returns exactly the pair the constructor returned: its store and
its error, whether the construction succeeded or failed. -/
theorem getOnlineStore_redis {σ : Type}
    (NewRedisOnlineStore : String → GoMap GoValue → Option σ × Option GoError)
    (plusV : GoMap GoValue → String) (config : RepoConfig)
    (htype : GoMap.get? config.OnlineStore "type" = some (.string "redis")) :
    getOnlineStore NewRedisOnlineStore plusV (some config)
      = .ok { store := (NewRedisOnlineStore config.Project config.OnlineStore).1
              err := (NewRedisOnlineStore config.Project config.OnlineStore).2
              constructorCalls := [(config.Project, config.OnlineStore)] } := by
  simp [getOnlineStore, getOnlineStoreType_string config.OnlineStore "redis" htype]

/-- C10 at `redisConfig`, with a constructor that succeeds and with one that
fails. -/
theorem getOnlineStore_redis_witness :
    GoMap.get? redisConfig.OnlineStore "type" = some (.string "redis") ∧
    getOnlineStore sampleRedis sampleRender (some redisConfig)
      = .ok { store := some "feast_demo"
              err := none
              constructorCalls := [("feast_demo", redisConfig.OnlineStore)] } ∧
    getOnlineStore failingRedis sampleRender (some redisConfig)
      = .ok { store := none
              err := some ⟨"dial tcp 127.0.0.1:6379: connect: connection refused"⟩
              constructorCalls := [("feast_demo", redisConfig.OnlineStore)] } :=
  ⟨rfl, getOnlineStore_redis sampleRedis sampleRender redisConfig rfl,
   getOnlineStore_redis failingRedis sampleRender redisConfig rfl⟩

/-! ## onlinestore.go: the read contract -/

/-- C11: the shape guarantee of the batched read.  A read succeeds whenever the
store is connected and no entity key is reached by a failure, also with no entity
key or no feature name; every successful read returns exactly one row per entity
key and in every row exactly one datum per feature name, and the datum at row
`i`, column `j` is the one of the `i`-th entity key and the `j`-th feature name,
whose reference names the view and that feature. -/
theorem OnlineRead_shape (b : Backend) (entityKeys : List EntityKey) (view : String)
    (features : List String) :
    (b.connected = true → (∀ k ∈ entityKeys, b.failing k = false) →
      ∃ rows, b.OnlineRead entityKeys view features = .ok rows) ∧
    ∀ rows : List (List FeatureData), b.OnlineRead entityKeys view features = .ok rows →
      rows.length = entityKeys.length ∧
      (∀ row ∈ rows, row.length = features.length) ∧
      ∀ (i j : Nat) (entityKey : EntityKey) (feature : String),
        entityKeys[i]? = some entityKey → features[j]? = some feature →
          ∃ (row : List FeatureData) (datum : FeatureData),
            rows[i]? = some row ∧ row[j]? = some datum ∧
            datum = b.datum entityKey view feature ∧
            datum.reference = ⟨view, feature⟩ := by
  constructor
  · intro hc hf
    have hany : entityKeys.any b.failing = false := by
      cases hany : entityKeys.any b.failing with
      | false => rfl
      | true =>
        obtain ⟨k, hk, hfail⟩ := List.any_eq_true.mp hany
        rw [hf k hk] at hfail
        exact absurd hfail (by decide)
    exact ⟨entityKeys.map fun entityKey =>
      features.map fun feature => b.datum entityKey view feature,
      by simp [Backend.OnlineRead, hc, hany]⟩
  · intro rows hok
    unfold Backend.OnlineRead at hok
    split at hok
    · exact absurd hok (by simp)
    · injection hok with hrows
      subst hrows
      refine ⟨List.length_map _ _, ?_, ?_⟩
      · intro row hrow
        obtain ⟨k, _, hk⟩ := List.mem_map.mp hrow
        rw [← hk]
        exact List.length_map _ _
      · intro i j entityKey feature hi hj
        refine ⟨features.map fun f => b.datum entityKey view f, b.datum entityKey view feature,
          ?_, ?_, rfl, ?_⟩
        · rw [List.getElem?_map, hi]
          rfl
        · rw [List.getElem?_map, hj]
          rfl
        · unfold Backend.datum
          cases b.materialized entityKey view feature with
          | none => rfl
          | some tv => rfl

/-- C11 on `sparseBackend`: the read of two drivers and two features returns two
rows of two data, and the reads with no entity key and with no feature name
return no row and two empty rows. -/
theorem OnlineRead_shape_witness :
    sparseBackend.OnlineRead [driver1001, driver1002] "driver_stats" ["conv_rate", "acc_rate"]
      = .ok sparseRows ∧
    sparseRows.length = [driver1001, driver1002].length ∧
    (∀ row ∈ sparseRows, row.length = ["conv_rate", "acc_rate"].length) ∧
    sparseBackend.OnlineRead [] "driver_stats" ["conv_rate", "acc_rate"] = .ok [] ∧
    sparseBackend.OnlineRead [driver1001, driver1002] "driver_stats" [] = .ok [[], []] :=
  have hshape := (OnlineRead_shape sparseBackend [driver1001, driver1002] "driver_stats"
    ["conv_rate", "acc_rate"]).2 sparseRows rfl
  ⟨rfl, hshape.1, hshape.2.1, rfl, rfl⟩

/-! ## featureview.go: the freshness window and the descriptor's data -/

theorem NewFeatureViewFromProto_nil_ttl (h : Heap) (spec : FeatureViewSpec)
    (hT : spec.Ttl = none) :
    NewFeatureViewFromProto h (some ⟨some spec⟩) = .error .nilDereference := by
  simp [NewFeatureViewFromProto, NewBaseFeatureView, Heap.loadDuration, hT, bind, Except.bind,
    pure, Except.pure]

theorem NewFeatureViewFromBase_of_constructed (h : Heap) (proto : Option FeatureViewProto)
    (h1 : Heap) (p1 : Addr) (hr : NewFeatureViewFromProto h proto = .ok (h1, p1)) (base : Ptr) :
    ∃ (h2 : Heap) (p2 : Addr), NewFeatureViewFromBase h1 (some p1) base = .ok (h2, p2) := by
  obtain ⟨spec, a, d, _, _, hd, hp, hh⟩ := NewFeatureViewFromProto_shape h proto h1 p1 hr
  have hv : h1.views[p1]?
      = some { base := some h.bases.length, ttl := some a, entities := some h.maps.length } := by
    rw [hh, hp]
    simp
  have hd1 : h1.durations[a]? = some d := by
    rw [hh]
    exact hd
  exact ⟨_, _, NewFeatureViewFromBase_ok h1 p1 base _ a d hv rfl hd1⟩

/-- C12 as stated fails: the descriptor `untimedStats` has a present spec and a
nil ttl, and `NewFeatureViewFromProto` panics on it with a nil dereference instead
of returning a view. -/
theorem construction_total_counterexample :
    untimedStats.Ttl = none ∧
    NewFeatureViewFromProto hourHeap (some ⟨some untimedStats⟩) = .error .nilDereference ∧
    ¬ ∃ r : Heap × Addr, NewFeatureViewFromProto hourHeap (some ⟨some untimedStats⟩) = .ok r := by
  refine ⟨rfl, rfl, ?_⟩
  rintro ⟨r, hr⟩
  have he : NewFeatureViewFromProto hourHeap (some ⟨some untimedStats⟩)
      = .error .nilDereference := rfl
  rw [he] at hr
  exact absurd hr (by simp)

/-- C12, amended: for a descriptor with a present spec and a present ttl,
`NewFeatureViewFromProto` returns a view, and `NewFeatureViewFromBase` on any view
so constructed returns as well, whatever the base; for a descriptor whose ttl is
nil, `NewFeatureViewFromProto` panics with a nil dereference. -/
theorem construction_total_with_ttl (h : Heap) (spec : FeatureViewSpec) :
    (ttlPresent h spec = true →
      ∃ (h1 : Heap) (p1 : Addr), NewFeatureViewFromProto h (some ⟨some spec⟩) = .ok (h1, p1)) ∧
    (∀ (h1 : Heap) (p1 : Addr), NewFeatureViewFromProto h (some ⟨some spec⟩) = .ok (h1, p1) →
      ∀ base : Ptr,
        ∃ (h2 : Heap) (p2 : Addr), NewFeatureViewFromBase h1 (some p1) base = .ok (h2, p2)) ∧
    (spec.Ttl = none →
      NewFeatureViewFromProto h (some ⟨some spec⟩) = .error .nilDereference) :=
  ⟨NewFeatureViewFromProto_returns h spec,
   fun h1 p1 hr base => NewFeatureViewFromBase_of_constructed h _ h1 p1 hr base,
   NewFeatureViewFromProto_nil_ttl h spec⟩

/-- C12, amended, at `driverStats`, whose ttl is present: the view is constructed
and a derivation from it returns. -/
theorem construction_total_with_ttl_witness :
    ttlPresent hourHeap driverStats = true ∧
    NewFeatureViewFromProto hourHeap (some ⟨some driverStats⟩) = .ok (driverHeap, 0) ∧
    ∃ (h2 : Heap) (p2 : Addr), NewFeatureViewFromBase driverHeap (some 0) none = .ok (h2, p2) :=
  ⟨rfl, rfl, (construction_total_with_ttl hourHeap driverStats).2.1 driverHeap 0 rfl none⟩

/-- C13: for a descriptor with a present ttl, `NewFeatureViewFromProto` returns a
view whose base is the object built by `NewBaseFeatureView` from the descriptor's
name and its feature list, in the same order, and whose ttl is the descriptor's
ttl pointer, so it reads the descriptor's ttl value; no `Duration` changes. -/
theorem NewFeatureViewFromProto_carries_descriptor (h : Heap) (spec : FeatureViewSpec)
    (a : Addr) (d : Duration) (hT : spec.Ttl = some a) (hd : h.durations[a]? = some d) :
    ∃ (h' : Heap) (p : Addr) (v : FeatureView),
      NewFeatureViewFromProto h (some ⟨some spec⟩) = .ok (h', p) ∧
      h'.views[p]? = some v ∧
      v.base = some (NewBaseFeatureView h spec.Name spec.Features).2 ∧
      h'.bases = (NewBaseFeatureView h spec.Name spec.Features).1.bases ∧
      baseValue h' p = some { name := spec.Name, features := spec.Features } ∧
      v.ttl = spec.Ttl ∧
      ttlValue h' p = some d ∧
      h'.durations = h.durations := by
  refine ⟨_, _, { base := some h.bases.length, ttl := some a, entities := some h.maps.length },
    NewFeatureViewFromProto_ok h spec a d hT hd, ?_, rfl, rfl, ?_, hT.symm, ?_, rfl⟩
  · simp
  · simp [baseValue, Heap.loadView]
  · simp [ttlValue, Heap.loadView, Heap.loadDuration, hd]

/-- C13 at `driverStats` on `hourHeap`: the view has the base `driver_stats` with
the features `conv_rate`, `acc_rate` in this order and the ttl of 3600 s. -/
theorem NewFeatureViewFromProto_carries_descriptor_witness :
    driverStats.Ttl = some 0 ∧ hourHeap.durations[0]? = some ⟨3600, 0⟩ ∧
    NewFeatureViewFromProto hourHeap (some ⟨some driverStats⟩) = .ok (driverHeap, 0) ∧
    baseValue driverHeap 0
      = some { name := "driver_stats", features := ["conv_rate", "acc_rate"] } ∧
    ttlValue driverHeap 0 = some ⟨3600, 0⟩ ∧
    ∃ (h' : Heap) (p : Addr) (v : FeatureView),
      NewFeatureViewFromProto hourHeap (some ⟨some driverStats⟩) = .ok (h', p) ∧
      h'.views[p]? = some v ∧
      v.base = some (NewBaseFeatureView hourHeap driverStats.Name driverStats.Features).2 ∧
      h'.bases = (NewBaseFeatureView hourHeap driverStats.Name driverStats.Features).1.bases ∧
      baseValue h' p = some { name := driverStats.Name, features := driverStats.Features } ∧
      v.ttl = driverStats.Ttl ∧
      ttlValue h' p = some ⟨3600, 0⟩ ∧
      h'.durations = hourHeap.durations :=
  ⟨rfl, rfl, rfl, rfl, rfl,
   NewFeatureViewFromProto_carries_descriptor hourHeap driverStats 0 ⟨3600, 0⟩ rfl rfl⟩

/-! ## onlinestore.go: the configured type -/

/-- C14: `getOnlineStoreType` returns `(s, true)` exactly when the mapping has the
key `type` with a string value, and then `s` is that string; in every other case,
the key absent or its value not a string, it returns `("", false)`. -/
theorem getOnlineStoreType_spec (cfg : GoMap GoValue) :
    (∀ s : String,
      getOnlineStoreType cfg = (s, true) ↔ GoMap.get? cfg "type" = some (.string s)) ∧
    ((GoMap.get? cfg "type" = none ∨
        ∃ v : GoValue, GoMap.get? cfg "type" = some v ∧ ∀ s : String, v ≠ .string s) →
      getOnlineStoreType cfg = ("", false)) ∧
    (getOnlineStoreType cfg = ("", false) →
      GoMap.get? cfg "type" = none ∨
        ∃ v : GoValue, GoMap.get? cfg "type" = some v ∧ ∀ s : String, v ≠ .string s) := by
  refine ⟨?_, getOnlineStoreType_other cfg, ?_⟩
  · intro s
    constructor
    · intro hret
      cases hget : GoMap.get? cfg "type" with
      | none => simp [getOnlineStoreType, hget] at hret
      | some v =>
        cases v with
        | string t =>
          rw [getOnlineStoreType_string cfg t hget] at hret
          injection hret with hs _
          rw [hs]
        | nil => simp [getOnlineStoreType, hget, GoValue.assertString] at hret
        | bool b => simp [getOnlineStoreType, hget, GoValue.assertString] at hret
        | int n => simp [getOnlineStoreType, hget, GoValue.assertString] at hret
        | slice xs => simp [getOnlineStoreType, hget, GoValue.assertString] at hret
        | map kvs => simp [getOnlineStoreType, hget, GoValue.assertString] at hret
    · exact getOnlineStoreType_string cfg s
  · intro hret
    cases hget : GoMap.get? cfg "type" with
    | none => exact Or.inl rfl
    | some v =>
      right
      refine ⟨v, rfl, ?_⟩
      intro s hs
      subst hs
      rw [getOnlineStoreType_string cfg s hget] at hret
      injection hret with _ hb
      exact absurd hb (by decide)

/-- C14 at four configurations: `type: "redis"`, `type: ""`, no `type`, and a
`type` that is a number. -/
theorem getOnlineStoreType_spec_witness :
    getOnlineStoreType redisConfig.OnlineStore = ("redis", true) ∧
    getOnlineStoreType emptyTypedConfig.OnlineStore = ("", true) ∧
    getOnlineStoreType untypedConfig.OnlineStore = ("", false) ∧
    getOnlineStoreType numberTypedConfig.OnlineStore = ("", false) :=
  ⟨((getOnlineStoreType_spec redisConfig.OnlineStore).1 "redis").mpr rfl,
   ((getOnlineStoreType_spec emptyTypedConfig.OnlineStore).1 "").mpr rfl,
   (getOnlineStoreType_spec untypedConfig.OnlineStore).2.1 (Or.inl rfl),
   (getOnlineStoreType_spec numberTypedConfig.OnlineStore).2.1
     (Or.inr ⟨.int 7, rfl, fun s hs => by cases hs⟩)⟩

/-! ## featureview.go: the entities map as a set -/

theorem entityKeys_eq_keys_entityMap (h : Heap) (p : Addr) :
    entityKeys h p = GoMap.keys (entityMap h p) := by
  unfold entityKeys entityMap
  cases h.loadView (some p) with
  | error e => rfl
  | ok v =>
    dsimp only
    cases h.loadMap v.entities with
    | error e => rfl
    | ok m => rfl

theorem hasEntity_eq_index_entityMap (h : Heap) (p : Addr) (name : String) :
    hasEntity h p name = GoMap.index (entityMap h p) name := by
  unfold hasEntity entityMap
  cases h.loadView (some p) with
  | error e => rfl
  | ok v =>
    dsimp only
    cases h.loadMap v.entities with
    | error e => rfl
    | ok m => rfl

theorem GoMap.index_iff_mem_keys (m : GoMap Bool) (hm : GoMap.AllTrue m) (name : String) :
    GoMap.index m name = true ↔ name ∈ GoMap.keys m := by
  unfold GoMap.index
  cases hget : GoMap.get? m name with
  | none =>
    have hnot := (GoMap.get?_eq_none_iff m name).mp hget
    simp [hnot]
  | some b =>
    have hb : b = true := hm name b hget
    have hmem : name ∈ GoMap.keys m := by
      by_contra hnot
      rw [(GoMap.get?_eq_none_iff m name).mpr hnot] at hget
      exact absurd hget (by simp)
    simp [hb, hmem]

theorem allTrue_constructedEntities (entities : List String) :
    GoMap.AllTrue (constructedEntities entities) := by
  intro k b hget
  rw [get?_constructedEntities] at hget
  by_cases hk : k ∈ GoMap.keys (constructedEntities entities)
  · simp only [hk, if_true] at hget
    injection hget with hget
    exact hget.symm
  · simp [hk] at hget

theorem entityMap_of_viewsHave (P : GoMap Bool → Prop) (h : Heap) (hh : h.ViewsHave P)
    (p : Addr) (hp : p < h.views.length) : P (entityMap h p) := by
  have hv : h.views[p]? = some (h.views[p]) := List.getElem?_eq_getElem hp
  obtain ⟨a, m, he, hm, hP⟩ := hh p _ hv
  simp only [entityMap, Heap.loadView, hv, he, Heap.loadMap, hm]
  exact hP

theorem viewsHave_after_construct (P : GoMap Bool → Prop)
    (hP : ∀ entities : List String, P (constructedEntities entities))
    (h : Heap) (hk : h.ViewsHave P) (proto : Option FeatureViewProto)
    (h' : Heap) (p : Addr) (hr : NewFeatureViewFromProto h proto = .ok (h', p)) :
    h'.ViewsHave P := by
  obtain ⟨spec, a, d, _, _, _, _, hh⟩ := NewFeatureViewFromProto_shape h proto h' p hr
  subst hh
  intro q v hv
  by_cases hq : (q : Nat) < h.views.length
  · have hv0 : h.views[q]? = some v := by
      simpa [List.getElem?_append_left hq] using hv
    obtain ⟨a', m, he, hm, hPm⟩ := hk q v hv0
    refine ⟨a', m, he, ?_, hPm⟩
    show (h.maps ++ [constructedEntities spec.Entities])[a']? = some m
    rw [List.getElem?_append_left (getElem?_lt_of_eq_some _ _ _ hm), hm]
  · have hlt := getElem?_lt_of_eq_some _ _ _ hv
    have hq' : q = h.views.length := by
      have hle : q < h.views.length + 1 := by simpa using hlt
      exact Nat.le_antisymm (Nat.lt_succ_iff.mp hle) (Nat.le_of_not_lt hq)
    subst hq'
    have hv1 : v = { base := some h.bases.length, ttl := some a, entities := some h.maps.length } := by
      simpa using hv.symm
    subst hv1
    exact ⟨h.maps.length, constructedEntities spec.Entities, rfl, by simp, hP _⟩

theorem viewsHave_after_derive (P : GoMap Bool → Prop) (h : Heap) (hk : h.ViewsHave P)
    (fs base : Ptr) (h' : Heap) (p : Addr)
    (hr : NewFeatureViewFromBase h fs base = .ok (h', p)) : h'.ViewsHave P := by
  obtain ⟨a, v0, t, d, _, hv0, _, _, _, hh⟩ := NewFeatureViewFromBase_shape h fs base h' p hr
  subst hh
  intro q v hv
  by_cases hq : (q : Nat) < h.views.length
  · have hvq : h.views[q]? = some v := by
      simpa [List.getElem?_append_left hq] using hv
    exact hk q v hvq
  · have hlt := getElem?_lt_of_eq_some _ _ _ hv
    have hq' : q = h.views.length := by
      have hle : q < h.views.length + 1 := by simpa using hlt
      exact Nat.le_antisymm (Nat.lt_succ_iff.mp hle) (Nat.le_of_not_lt hq)
    subst hq'
    have hv1 : v = { base := base, ttl := some h.durations.length, entities := v0.entities } := by
      simpa using hv.symm
    subst hv1
    exact hk a v0 hv0

theorem viewsHave_after_calls (P : GoMap Bool → Prop)
    (hP : ∀ entities : List String, P (constructedEntities entities)) (calls : List Call) :
    ∀ (h0 h : Heap), h0.ViewsHave P → runCalls calls h0 = .ok h → h.ViewsHave P := by
  induction calls with
  | nil =>
    intro h0 h hk hr
    simp only [runCalls] at hr
    injection hr with hr
    subst hr
    exact hk
  | cons c rest ih =>
    intro h0 h hk hr
    simp only [runCalls] at hr
    cases hc : c.exec h0 with
    | error e => simp [hc] at hr
    | ok r =>
      obtain ⟨h1, p⟩ := r
      simp only [hc] at hr
      refine ih h1 h ?_ hr
      cases c with
      | fromProto proto => exact viewsHave_after_construct P hP h0 hk proto h1 p hc
      | fromBase fs base => exact viewsHave_after_derive P h0 hk fs base h1 p hc

theorem entityMap_constructed (h : Heap) (proto : Option FeatureViewProto) (h' : Heap)
    (p : Addr) (hr : NewFeatureViewFromProto h proto = .ok (h', p)) :
    ∃ spec : FeatureViewSpec,
      proto = some ⟨some spec⟩ ∧ entityMap h' p = constructedEntities spec.Entities := by
  obtain ⟨spec, a, d, hproto, _, _, hp, hh⟩ := NewFeatureViewFromProto_shape h proto h' p hr
  refine ⟨spec, hproto, ?_⟩
  subst hh
  subst hp
  simp [entityMap, Heap.loadView, Heap.loadMap]

theorem entityMap_derived (h : Heap) (fs base : Ptr) (h' : Heap) (p : Addr)
    (hr : NewFeatureViewFromBase h fs base = .ok (h', p)) :
    ∃ a : Addr, fs = some a ∧ entityMap h' p = entityMap h a := by
  obtain ⟨a, v, t, d, hfs, hv, _, _, hp, hh⟩ := NewFeatureViewFromBase_shape h fs base h' p hr
  refine ⟨a, hfs, ?_⟩
  subst hh
  subst hp
  simp [entityMap, Heap.loadView, Heap.loadMap, hv]

/-- C15: the `entities` map represents a set.  In every view returned by
`NewFeatureViewFromProto`, in every view derived from one by
`NewFeatureViewFromBase`, and in every view of a heap reached from one without
views by constructions and derivations, no key of the map is mapped to `false`,
and looking a name up in the map, an absent name reading as `false`, gives `true`
exactly when the name is a key of the view. -/
theorem entities_map_well_formed :
    (∀ (h : Heap) (proto : Option FeatureViewProto) (h' : Heap) (p : Addr),
      NewFeatureViewFromProto h proto = .ok (h', p) →
        GoMap.AllTrue (entityMap h' p) ∧
        ∀ name : String, hasEntity h' p name = true ↔ name ∈ entityKeys h' p) ∧
    (∀ (h : Heap) (proto : Option FeatureViewProto) (h1 : Heap) (p1 : Addr) (base : Ptr)
        (h2 : Heap) (p2 : Addr),
      NewFeatureViewFromProto h proto = .ok (h1, p1) →
      NewFeatureViewFromBase h1 (some p1) base = .ok (h2, p2) →
        GoMap.AllTrue (entityMap h2 p2) ∧
        ∀ name : String, hasEntity h2 p2 name = true ↔ name ∈ entityKeys h2 p2) ∧
    (∀ (h0 : Heap) (calls : List Call) (h : Heap),
      h0.views = [] → runCalls calls h0 = .ok h →
        ∀ p : Addr, p < h.views.length →
          GoMap.AllTrue (entityMap h p) ∧
          ∀ name : String, hasEntity h p name = true ↔ name ∈ entityKeys h p) := by
  have hlookup : ∀ (h : Heap) (p : Addr), GoMap.AllTrue (entityMap h p) →
      ∀ name : String, hasEntity h p name = true ↔ name ∈ entityKeys h p := by
    intro h p hall name
    rw [hasEntity_eq_index_entityMap, entityKeys_eq_keys_entityMap]
    exact GoMap.index_iff_mem_keys _ hall name
  refine ⟨?_, ?_, ?_⟩
  · intro h proto h' p hr
    obtain ⟨spec, _, hmap⟩ := entityMap_constructed h proto h' p hr
    have hall : GoMap.AllTrue (entityMap h' p) := by
      rw [hmap]
      exact allTrue_constructedEntities _
    exact ⟨hall, hlookup h' p hall⟩
  · intro h proto h1 p1 base h2 p2 hr1 hr2
    obtain ⟨spec, _, hmap⟩ := entityMap_constructed h proto h1 p1 hr1
    obtain ⟨a, ha, hmap2⟩ := entityMap_derived h1 (some p1) base h2 p2 hr2
    have hap : a = p1 := by
      injection ha with ha
      exact ha.symm
    subst hap
    have hall : GoMap.AllTrue (entityMap h2 p2) := by
      rw [hmap2, hmap]
      exact allTrue_constructedEntities _
    exact ⟨hall, hlookup h2 p2 hall⟩
  · intro h0 calls h hinit hr p hp
    have hk0 : h0.ViewsHave GoMap.AllTrue := by
      intro q v hv
      simp [hinit] at hv
    have hall : GoMap.AllTrue (entityMap h p) :=
      entityMap_of_viewsHave GoMap.AllTrue h
        (viewsHave_after_calls GoMap.AllTrue allTrue_constructedEntities calls h0 h hk0 hr) p hp
    exact ⟨hall, hlookup h p hall⟩

/-- C15 on the run `sampleCalls` from `hourHeap` and on the view of `tripStats`:
in the last view derived the lookup of `"__dummy"` is true and that of
`"__dummy_id"` is not; in the view of `tripStats` no key is mapped to `false`. -/
theorem entities_map_well_formed_witness :
    runCalls sampleCalls hourHeap = .ok sampleHeap ∧
    (hasEntity sampleHeap 2 "__dummy" = true ↔ "__dummy" ∈ entityKeys sampleHeap 2) ∧
    (hasEntity sampleHeap 2 "__dummy_id" = true ↔ "__dummy_id" ∈ entityKeys sampleHeap 2) ∧
    entityMap tripHeap 0 = [("driver_id", true), ("rider_id", true)] ∧
    GoMap.AllTrue (entityMap tripHeap 0) :=
  have hrun := entities_map_well_formed.2.2 hourHeap sampleCalls sampleHeap rfl rfl 2
    (by decide)
  ⟨rfl, hrun.2 "__dummy", hrun.2 "__dummy_id", rfl,
   (entities_map_well_formed.1 hourHeap (some ⟨some tripStats⟩) tripHeap 0 rfl).1⟩

/-! ## featureview.go: derivation and the features of the source -/

theorem viewValue_derived (h : Heap) (fs base : Ptr) (h' : Heap) (p : Addr)
    (hr : NewFeatureViewFromBase h fs base = .ok (h', p)) :
    ∃ (a : Addr) (v : FeatureView) (d : Duration),
      fs = some a ∧ h.views[a]? = some v ∧ ttlValue h a = some d ∧ h'.bases = h.bases ∧
      viewValue h' p = some { base := base
                              features := base.bind fun b => h.bases[b]?
                              ttl := some d
                              entities := v.entities
                              keys := entityMap h a } := by
  obtain ⟨a, v, t, d, hfs, hv, ht, hd, hp, hh⟩ := NewFeatureViewFromBase_shape h fs base h' p hr
  have hsrc := derived_source_unchanged h a base v t d hv ht hd h' hh
  refine ⟨a, v, d, hfs, hv, hsrc.2.2.1, by rw [hh], ?_⟩
  subst hh
  subst hp
  cases base with
  | none => simp [viewValue, baseValue, ttlValue, entityMap, Heap.loadView, Heap.loadDuration,
      Heap.loadMap, hv]
  | some b => simp [viewValue, baseValue, ttlValue, entityMap, Heap.loadView, Heap.loadDuration,
      Heap.loadMap, hv]

theorem viewValue_of_view (h : Heap) (a : Addr) (v : FeatureView) (hv : h.views[a]? = some v) :
    viewValue h a = some { base := v.base
                           features := v.base.bind fun b => h.bases[b]?
                           ttl := ttlValue h a
                           entities := v.entities
                           keys := entityMap h a } := by
  cases hb : v.base with
  | none => simp [viewValue, baseValue, Heap.loadView, hv, hb]
  | some b => simp [viewValue, baseValue, Heap.loadView, hv, hb]

theorem NewFeatureViewFromBase_returns (h : Heap) (a : Addr)
    (ht : (ttlValue h a).isSome = true) (base : Ptr) :
    ∃ (h' : Heap) (p : Addr), NewFeatureViewFromBase h (some a) base = .ok (h', p) := by
  cases hv : h.views[a]? with
  | none => simp [ttlValue, Heap.loadView, hv] at ht
  | some v =>
    cases hvt : v.ttl with
    | none => simp [ttlValue, Heap.loadView, Heap.loadDuration, hv, hvt] at ht
    | some t =>
      cases hd : h.durations[t]? with
      | none => simp [ttlValue, Heap.loadView, Heap.loadDuration, hv, hvt, hd] at ht
      | some d => exact ⟨_, _, NewFeatureViewFromBase_ok h a base v t d hv hvt hd⟩

/-- C16: derivation depends on the ttl and the entity set of the source only.
When `v.NewFeatureViewFromBase(b1)` returns, deriving `b2` from the result and
deriving `b2` from `v` both return, and the two views are equal in value: the same
base, the same ttl value, the same entities map.  Deriving `v` with its own base
gives a view equal in value to `v`.  A derivation returns whenever the ttl of the
source can be read. -/
theorem derivation_ignores_features (h : Heap) (a : Addr) (b1 b2 : Ptr) :
    (∀ (h1 : Heap) (p1 : Addr), NewFeatureViewFromBase h (some a) b1 = .ok (h1, p1) →
      ∃ (h2 : Heap) (p2 : Addr) (h3 : Heap) (p3 : Addr),
        NewFeatureViewFromBase h1 (some p1) b2 = .ok (h2, p2) ∧
        NewFeatureViewFromBase h (some a) b2 = .ok (h3, p3) ∧
        viewValue h2 p2 = viewValue h3 p3 ∧ (viewValue h3 p3).isSome = true) ∧
    (∀ (v : FeatureView), h.views[a]? = some v →
      ∀ (h4 : Heap) (p4 : Addr), NewFeatureViewFromBase h (some a) v.base = .ok (h4, p4) →
        viewValue h4 p4 = viewValue h a ∧ (viewValue h a).isSome = true) ∧
    ((ttlValue h a).isSome = true →
      ∀ base : Ptr,
        ∃ (h' : Heap) (p : Addr), NewFeatureViewFromBase h (some a) base = .ok (h', p)) := by
  refine ⟨?_, ?_, fun ht base => NewFeatureViewFromBase_returns h a ht base⟩
  · intro h1 p1 hr1
    obtain ⟨a1, v, d, hfs1, hv, httl, hbases1, hval1⟩ := viewValue_derived h (some a) b1 h1 p1 hr1
    have ha1 : a1 = a := by
      injection hfs1 with hfs1
      exact hfs1.symm
    subst ha1
    obtain ⟨h3, p3, hr3⟩ := NewFeatureViewFromBase_returns h a1 (by rw [httl]; rfl) b2
    obtain ⟨a3, v3, d3, hfs3, hv3, httl3, _, hval3⟩ := viewValue_derived h (some a1) b2 h3 p3 hr3
    have ha3 : a3 = a1 := by
      injection hfs3 with hfs3
      exact hfs3.symm
    subst ha3
    have hvv : v3 = v := by
      rw [hv] at hv3
      injection hv3 with hv3
      exact hv3.symm
    have hdd : d3 = d := by
      rw [httl] at httl3
      injection httl3 with httl3
      exact httl3.symm
    subst hvv
    subst hdd
    -- the view derived first, read on `h1`
    obtain ⟨a', v', t', d', hfs', hv', ht', hd', hp', hh'⟩ :=
      NewFeatureViewFromBase_shape h (some a3) b1 h1 p1 hr1
    have ha' : a' = a3 := by
      injection hfs' with hfs'
      exact hfs'.symm
    subst ha'
    have hv1 : v' = v3 := by
      rw [hv] at hv'
      injection hv' with hv'
      exact hv'.symm
    subst hv1
    have hreads := derived_view_reads h a' b1 v' d' hv h1 hh'
    have hsrc := derived_source_unchanged h a' b1 v' t' d' hv ht' hd' h1 hh'
    have hd1 : d' = d3 := by
      have := hsrc.2.2.1
      rw [httl] at this
      injection this with this
      exact this.symm
    subst hd1
    have httl1 : (ttlValue h1 p1).isSome = true := by
      rw [hp', hreads.2.1]
      rfl
    obtain ⟨h2, p2, hr2⟩ := NewFeatureViewFromBase_returns h1 p1 httl1 b2
    obtain ⟨a2, v2, d2, hfs2, hv2, httl2, _, hval2⟩ :=
      viewValue_derived h1 (some p1) b2 h2 p2 hr2
    have ha2 : a2 = p1 := by
      injection hfs2 with hfs2
      exact hfs2.symm
    subst ha2
    have hv2' : v2 = { base := b1, ttl := some h.durations.length, entities := v'.entities } := by
      rw [hp'] at hv2
      rw [hreads.1] at hv2
      injection hv2 with hv2
      exact hv2.symm
    have hd2 : d2 = d' := by
      rw [hp', hreads.2.1] at httl2
      injection httl2 with httl2
      exact httl2.symm
    have hmap : entityMap h1 a2 = entityMap h a' := by
      obtain ⟨a'', ha'', hm⟩ := entityMap_derived h (some a') b1 h1 a2 hr1
      injection ha'' with ha''
      rw [hm, ha'']
    refine ⟨h2, p2, h3, p3, hr2, hr3, ?_, ?_⟩
    · rw [hval2, hval3, hbases1, hmap, hv2', hd2]
    · rw [hval3]
      rfl
  · intro v hv h4 p4 hr4
    obtain ⟨a4, v4, d, hfs4, hv4, httl, _, hval4⟩ := viewValue_derived h (some a) v.base h4 p4 hr4
    have ha4 : a4 = a := by
      injection hfs4 with hfs4
      exact hfs4.symm
    subst ha4
    have hvv : v4 = v := by
      rw [hv] at hv4
      injection hv4 with hv4
      exact hv4.symm
    subst hvv
    rw [hval4, viewValue_of_view h a4 v4 hv, httl]
    exact ⟨rfl, rfl⟩

/-- C16 on `projHeap`: deriving base 1 and then base 0 from view 0 gives the value
of deriving base 0 directly, and deriving view 0 with its own base 0 gives the
value of view 0. -/
theorem derivation_ignores_features_witness :
    NewFeatureViewFromBase projHeap (some 0) (some 1) = .ok (derivedHeap, 1) ∧
    (∃ (h2 : Heap) (p2 : Addr) (h3 : Heap) (p3 : Addr),
      NewFeatureViewFromBase derivedHeap (some 1) (some 0) = .ok (h2, p2) ∧
      NewFeatureViewFromBase projHeap (some 0) (some 0) = .ok (h3, p3) ∧
      viewValue h2 p2 = viewValue h3 p3 ∧ (viewValue h3 p3).isSome = true) ∧
    NewFeatureViewFromBase projHeap (some 0) (some 0) = .ok (rederivedHeap, 1) ∧
    viewValue rederivedHeap 1 = viewValue projHeap 0 ∧
    viewValue projHeap 0
      = some { base := some 0
               features := some { name := "trip_stats", features := ["fare"] }
               ttl := some ⟨3600, 0⟩
               entities := some 0
               keys := [("driver_id", true), ("rider_id", true)] } :=
  ⟨rfl, (derivation_ignores_features projHeap 0 (some 1) (some 0)).1 derivedHeap 1 rfl, rfl,
   ((derivation_ignores_features projHeap 0 (some 1) (some 0)).2.1
      { base := some 0, ttl := some 0, entities := some 0 } rfl rederivedHeap 1 rfl).1,
   rfl⟩

end Feast
